import Mathlib

/-!
# Verification of the procurement-tracker financial core

Shallow embedding of the repository's financial core:

* `convex/helpers.ts` — the currency converter `toILS`, the cost allocator
  `calculateProductCosts`, and the settlement summary `calculateOrderSummary`;
* `convex/products.ts` / `convex/costs.ts` — the `addProduct` / `addCost`
  mutations (payment-stub creation) and the `deleteProduct` / `deleteCost`
  mutations (payment cascade);
* `convex/orders.ts` — the `createOrder` / `deleteOrder` mutations;
* `src/lib/sheets.ts` (the Google-Sheets implementation) — its `toILS` and the
  allocation / summary blocks inside `getOrderFull`.

Numbers are embedded as `ℚ` (the source computes with JS numbers); the Convex
document store is embedded as explicit lists of records threaded through each
mutation.  `ctx.db.delete(doc._id)` where `doc` was obtained by
`.first()` on an index is embedded as `List.eraseP` with the same predicate
(the first matching row is removed); `ctx.db.delete(link._id)` for a row
held from an earlier read is embedded as `deleteRow`, which erases the first
row equal to it and **fails** (`none`, the Convex call throws and the
mutation rolls back) when the row was already deleted; a loop deleting every
freshly collected row of an indexed query is embedded as `List.filter` with
the negated predicate.  Mutations whose loops contain such fallible deletes
(`deleteProduct`, `deleteCost`) therefore return `Option`.
-/

namespace Procurement

/-- Payment status: the schema's `v.union(v.literal("pending"), v.literal("approved"))`. -/
inductive PayStatus where
  | pending
  | approved
deriving DecidableEq, Repr

/-- A row of the `products` table (`convex/schema.ts`). -/
structure Product where
  productId : String
  orderId : String
  name : String
  supplier : Option String
  quantity : ℚ
  pricePerUnit : ℚ
  priceTotal : ℚ
  currency : String
  cbmPerUnit : ℚ
  cbmTotal : ℚ
  kgPerUnit : ℚ
  kgTotal : ℚ
  orderDate : Option String
  notes : Option String
deriving DecidableEq, Repr

/-- The five allocation methods (`AllocationMethod` in `convex/helpers.ts`).
The Hebrew literals שווה/נפח/משקל/עלות/כמות are rendered by their meanings. -/
inductive AllocationMethod where
  | equal     -- "שווה"
  | byVolume  -- "נפח"
  | byWeight  -- "משקל"
  | byCost    -- "עלות"
  | byQuantity -- "כמות"
deriving DecidableEq, Repr

/-- A row of the `additionalCosts` table. -/
structure AdditionalCost where
  costId : String
  orderId : String
  description : String
  amount : ℚ
  currency : String
  allocationMethod : AllocationMethod
  notes : Option String
deriving DecidableEq, Repr

/-- A row of the `costProductLinks` table. -/
structure CostProductLink where
  costId : String
  productId : String
  isLinked : Bool
deriving DecidableEq, Repr

/-- A row of the `payments` table. -/
structure Payment where
  paymentId : String
  orderId : String
  date : String
  amount : ℚ
  currency : String
  payee : Option String
  description : Option String
  reference : Option String
  status : PayStatus
deriving DecidableEq, Repr

/-- A row of the `paymentProductLinks` table. -/
structure PaymentProductLink where
  paymentId : String
  productId : String
deriving DecidableEq, Repr

/-- A row of the `paymentCostLinks` table. -/
structure PaymentCostLink where
  paymentId : String
  costId : String
deriving DecidableEq, Repr

/-- A row of the `orders` table. -/
structure Order where
  orderId : String
  orderName : String
  supplier : Option String
  usdRate : ℚ
  cnyRate : ℚ
  createdDate : String
  status : String
  notes : Option String
  estimatedArrival : Option String
deriving DecidableEq, Repr

/-- A row of the `orderMilestones` table (only the fields the embedded
mutations inspect: the key and the `orderId` foreign key). -/
structure OrderMilestone where
  milestoneId : String
  orderId : String
  milestoneTypeId : String
deriving DecidableEq, Repr

/-- A row of the `productMilestones` table (key and `productId` foreign key). -/
structure ProductMilestone where
  milestoneId : String
  productId : String
  milestoneTypeId : String
deriving DecidableEq, Repr

/-- The Convex document store restricted to the tables the verified mutations
touch, each table a list of rows in insertion order (`insert` appends,
`collect()` returns the list, `first()` takes the first match). -/
structure DB where
  orders : List Order
  products : List Product
  additionalCosts : List AdditionalCost
  costProductLinks : List CostProductLink
  payments : List Payment
  paymentProductLinks : List PaymentProductLink
  paymentCostLinks : List PaymentCostLink
  orderMilestones : List OrderMilestone
  productMilestones : List ProductMilestone
deriving DecidableEq, Repr

/-! ## Currency converter (`toILS`, convex/helpers.ts lines 5–22)

The TS `switch (currency)` on string literals is embedded as the equivalent
chain of equality tests, with the `default` arm falling back to the USD rate. -/

/-- `toILS` from `convex/helpers.ts` (identical to the `toILS` of
`src/lib/sheets.ts` lines 158–165). -/
def toILS (amount : ℚ) (currency : String) (usdRate : ℚ) (cnyRate : ℚ) : ℚ :=
  if currency = "USD" then amount * usdRate
  else if currency = "CNY" then amount * cnyRate
  else if currency = "ILS" then amount
  else amount * usdRate

/-! ## Cost allocator (`calculateProductCosts`, convex/helpers.ts lines 52–150)

The body of the `products.map` callback is embedded in two pieces: the share a
single cost contributes to a single product (`costShareForProduct`, the body of
the inner `for (const cost of costs)` loop, where both `continue` statements
contribute `0` to the accumulator), and the surrounding map
(`calculateProductCosts`). -/

/-- `array.reduce((sum, x) => sum + f(x), 0)` as it appears throughout the
source. -/
def sumBy (f : α → ℚ) (l : List α) : ℚ :=
  l.foldl (fun sum x => sum + f x) 0

/-- Lines 72–74: ids of the rows with `l.costId === cost.costId && l.isLinked`. -/
def linkedProductIdsFor (cost : AdditionalCost) (links : List CostProductLink) :
    List String :=
  (links.filter (fun l => l.costId == cost.costId && l.isLinked)).map (·.productId)

/-- Lines 84–88: the products this cost applies to (all of them when the
explicit link set is empty). -/
def linkedProductsFor (cost : AdditionalCost) (products : List Product)
    (links : List CostProductLink) : List Product :=
  let linkedProductIds := linkedProductIdsFor cost links
  products.filter (fun p =>
    linkedProductIds.length == 0 || linkedProductIds.contains p.productId)

/-- The `switch (cost.allocationMethod)` block (convex/helpers.ts lines
94–133), parameterized by the already-determined linked product set and
`costILS`.  The `case "שווה"` label and the `default:` label share one arm in
the source; the schema's allocation method is a closed enum, so the `.equal`
arm is that shared arm. -/
def methodShare (method : AllocationMethod) (linkedProducts : List Product)
    (usdRate cnyRate costILS : ℚ) (product : Product) : ℚ :=
  match method with
  | .byVolume =>
      let totalCBM := sumBy (·.cbmTotal) linkedProducts
      if totalCBM > 0 then (product.cbmTotal / totalCBM) * costILS else 0
  | .byWeight =>
      let totalKG := sumBy (·.kgTotal) linkedProducts
      if totalKG > 0 then (product.kgTotal / totalKG) * costILS else 0
  | .byCost =>
      let totalCost :=
        sumBy (fun p => toILS p.priceTotal p.currency usdRate cnyRate)
          linkedProducts
      -- line 117 uses the `priceILS` local, which is
      -- `toILS product.priceTotal product.currency usdRate cnyRate`
      if totalCost > 0 then
        (toILS product.priceTotal product.currency usdRate cnyRate / totalCost)
          * costILS
      else 0
  | .byQuantity =>
      let totalQty := sumBy (·.quantity) linkedProducts
      if totalQty > 0 then (product.quantity / totalQty) * costILS else 0
  | .equal => costILS / (linkedProducts.length : ℚ)

/-- The share of `cost` allocated to `product`: the body of the loop at
lines 69–136 of convex/helpers.ts.  `continue` (a cost not linked to this
product, or an empty linked set) contributes `0`. -/
def costShareForProduct (cost : AdditionalCost) (products : List Product)
    (links : List CostProductLink) (usdRate cnyRate : ℚ) (product : Product) : ℚ :=
  let costILS := toILS cost.amount cost.currency usdRate cnyRate
  let linkedProductIds := linkedProductIdsFor cost links
  -- If no specific links, cost applies to all products
  let isLinkedToThisProduct :=
    linkedProductIds.length == 0 || linkedProductIds.contains product.productId
  if !isLinkedToThisProduct then 0
  else
    let linkedProducts := linkedProductsFor cost products links
    if linkedProducts.length == 0 then 0
    else methodShare cost.allocationMethod linkedProducts usdRate cnyRate
      costILS product

/-- Division instrumented with an explicit divide-by-zero marker: `none`
exactly where the JS `a / b` would produce `Infinity`/`NaN`. -/
def divQ (a b : ℚ) : Option ℚ :=
  if b = 0 then none else some (a / b)

/-- `methodShare` with every division instrumented by `divQ` — used to show
no branch ever reaches a division by zero. -/
def methodShareChecked (method : AllocationMethod) (linkedProducts : List Product)
    (usdRate cnyRate costILS : ℚ) (product : Product) : Option ℚ :=
  match method with
  | .byVolume =>
      let totalCBM := sumBy (·.cbmTotal) linkedProducts
      if totalCBM > 0 then (divQ product.cbmTotal totalCBM).map (· * costILS)
      else some 0
  | .byWeight =>
      let totalKG := sumBy (·.kgTotal) linkedProducts
      if totalKG > 0 then (divQ product.kgTotal totalKG).map (· * costILS)
      else some 0
  | .byCost =>
      let totalCost :=
        sumBy (fun p => toILS p.priceTotal p.currency usdRate cnyRate)
          linkedProducts
      if totalCost > 0 then
        (divQ (toILS product.priceTotal product.currency usdRate cnyRate)
          totalCost).map (· * costILS)
      else some 0
  | .byQuantity =>
      let totalQty := sumBy (·.quantity) linkedProducts
      if totalQty > 0 then (divQ product.quantity totalQty).map (· * costILS)
      else some 0
  | .equal => divQ costILS (linkedProducts.length : ℚ)

/-- `costShareForProduct` with every division instrumented by `divQ`. -/
def costShareForProductChecked (cost : AdditionalCost) (products : List Product)
    (links : List CostProductLink) (usdRate cnyRate : ℚ) (product : Product) :
    Option ℚ :=
  let costILS := toILS cost.amount cost.currency usdRate cnyRate
  let linkedProductIds := linkedProductIdsFor cost links
  let isLinkedToThisProduct :=
    linkedProductIds.length == 0 || linkedProductIds.contains product.productId
  if !isLinkedToThisProduct then some 0
  else
    let linkedProducts := linkedProductsFor cost products links
    if linkedProducts.length == 0 then some 0
    else methodShareChecked cost.allocationMethod linkedProducts usdRate cnyRate
      costILS product

/-- `ProductWithCosts` from convex/helpers.ts: a product together with its
computed financial fields. -/
structure ProductWithCosts extends Product where
  priceILS : ℚ
  additionalCostsILS : ℚ
  finalCostILS : ℚ
  finalCostPerUnitILS : ℚ
deriving DecidableEq, Repr

/-- `calculateProductCosts` (convex/helpers.ts lines 52–150). -/
def calculateProductCosts (products : List Product) (costs : List AdditionalCost)
    (links : List CostProductLink) (usdRate cnyRate : ℚ) : List ProductWithCosts :=
  products.map (fun product =>
    let priceILS := toILS product.priceTotal product.currency usdRate cnyRate
    let allocatedCosts :=
      costs.foldl
        (fun sum cost =>
          sum + costShareForProduct cost products links usdRate cnyRate product) 0
    let finalCostILS := priceILS + allocatedCosts
    let finalCostPerUnitILS :=
      if product.quantity > 0 then finalCostILS / product.quantity else 0
    { product with
        priceILS := priceILS
        additionalCostsILS := allocatedCosts
        finalCostILS := finalCostILS
        finalCostPerUnitILS := finalCostPerUnitILS })

/-- `CostWithILS` from convex/helpers.ts. -/
structure CostWithILS extends AdditionalCost where
  amountILS : ℚ
  linkedProductCount : Nat
deriving DecidableEq, Repr

/-- `PaymentWithILS` from convex/helpers.ts. -/
structure PaymentWithILS extends Payment where
  amountILS : ℚ
deriving DecidableEq, Repr

/-- `OrderSummary` from convex/helpers.ts. -/
structure OrderSummary where
  productCount : Nat
  totalProductsILS : ℚ
  totalCostsILS : ℚ
  totalOrderILS : ℚ
  totalPaidILS : ℚ
  balanceILS : ℚ
  totalCBM : ℚ
  totalKG : ℚ
deriving DecidableEq, Repr

/-- `calculateOrderSummary` (convex/helpers.ts lines 152–179). -/
def calculateOrderSummary (productsWithCosts : List ProductWithCosts)
    (costsWithILS : List CostWithILS) (paymentsWithILS : List PaymentWithILS) :
    OrderSummary :=
  let totalProductsILS := sumBy (·.priceILS) productsWithCosts
  let totalCostsILS := sumBy (·.amountILS) costsWithILS
  let totalOrderILS := totalProductsILS + totalCostsILS
  -- Only count approved payments toward total paid
  let approvedPayments := paymentsWithILS.filter (fun p => p.status == .approved)
  let totalPaidILS := sumBy (·.amountILS) approvedPayments
  let totalCBM := sumBy (·.cbmTotal) productsWithCosts
  let totalKG := sumBy (·.kgTotal) productsWithCosts
  { productCount := productsWithCosts.length
    totalProductsILS := totalProductsILS
    totalCostsILS := totalCostsILS
    totalOrderILS := totalOrderILS
    totalPaidILS := totalPaidILS
    balanceILS := totalOrderILS - totalPaidILS
    totalCBM := totalCBM
    totalKG := totalKG }

/-! ## The Google-Sheets implementation (`src/lib/sheets.ts`)

`getOrderFull` (lines 950–1073) recomputes the same financial figures over
snake_case records.  Its `Payment` interface (lines 84–97) has **no `status`
field**; the computed `amountILS` (assigned unconditionally at line 1043
before the summary is built) is embedded as a plain field.  The defensive
`x || 0` coalescings at lines 996, 1035, 1047, 1048 and 1050 read fields that
were assigned just above, so on `ℚ` they are the identity (on JS numbers they
only remap `0`/`NaN` to `0`). -/

/-- The `Payment` interface of sheets.ts (lines 84–97) with the computed
`amountILS` as assigned by `getOrderFull` line 1043. -/
structure SheetsPayment where
  id : String
  order_id : String
  product_id : String
  cost_id : String
  date : String
  amount : ℚ
  currency : String
  payee : String
  description : String
  reference : String
  amountILS : ℚ
deriving DecidableEq, Repr

/-- The raw (uncomputed) fields of the `Product` interface of sheets.ts. -/
structure SheetsProduct where
  id : String
  order_id : String
  name : String
  supplier : String
  quantity : ℚ
  price_per_unit : ℚ
  price_total : ℚ
  currency : String
  cbm_per_unit : ℚ
  cbm_total : ℚ
  kg_per_unit : ℚ
  kg_total : ℚ
  order_date : String
  notes : String
deriving DecidableEq, Repr

/-- The raw fields of the `AdditionalCost` interface of sheets.ts. -/
structure SheetsCost where
  id : String
  order_id : String
  description : String
  amount : ℚ
  currency : String
  allocation_method : AllocationMethod
  notes : String
deriving DecidableEq, Repr

/-- The `CostProductLink` interface of sheets.ts. -/
structure SheetsLink where
  id : String
  cost_id : String
  product_id : String
  is_linked : Bool
deriving DecidableEq, Repr

/-- A sheets product with the computed fields `getOrderFull` assigns
(lines 981, 1034–1038). -/
structure SheetsProductOut extends SheetsProduct where
  priceILS : ℚ
  additionalCostsILS : ℚ
  finalCostILS : ℚ
  finalCostPerUnitILS : ℚ
deriving DecidableEq, Repr

/-- The body of the `for (const cost of costs)` loop inside `getOrderFull`
(sheets.ts lines 985–1032): the share `cost` contributes to `product`, `0`
when the two `if` guards fail.  `cost.amountILS` was assigned at line 975 as
`toILS(cost.amount, cost.currency, order.usd_rate, order.cny_rate)`, so the
`cost.amountILS || 0` read at line 996 is embedded as that value. -/
def sheetsCostShare (cost : SheetsCost) (products : List SheetsProduct)
    (costLinks : List SheetsLink) (usd_rate cny_rate : ℚ)
    (product : SheetsProduct) : ℚ :=
  let linkedProductIds :=
    (costLinks.filter (fun l => l.cost_id == cost.id && l.is_linked)).map
      (·.product_id)
  if linkedProductIds.length == 0 || linkedProductIds.contains product.id
  then
    let linkedProducts := products.filter (fun p =>
      linkedProductIds.length == 0 || linkedProductIds.contains p.id)
    if linkedProducts.length > 0 then
      let costILS := toILS cost.amount cost.currency usd_rate cny_rate
      match cost.allocation_method with
      | .byVolume =>
          let totalCBM := sumBy (·.cbm_total) linkedProducts
          if totalCBM > 0 then (product.cbm_total / totalCBM) * costILS
          else 0
      | .byWeight =>
          let totalKG := sumBy (·.kg_total) linkedProducts
          if totalKG > 0 then (product.kg_total / totalKG) * costILS
          else 0
      | .byCost =>
          let totalCost :=
            sumBy
              (fun p => toILS p.price_total p.currency usd_rate cny_rate)
              linkedProducts
          let productCost :=
            toILS product.price_total product.currency usd_rate cny_rate
          if totalCost > 0 then (productCost / totalCost) * costILS
          else 0
      | .byQuantity =>
          let totalQty := sumBy (·.quantity) linkedProducts
          if totalQty > 0 then (product.quantity / totalQty) * costILS
          else 0
      | .equal => costILS / (linkedProducts.length : ℚ)
    else 0
  else 0

/-- The per-product allocation block of `getOrderFull`
(sheets.ts lines 980–1039). -/
def sheetsProductCalc (products : List SheetsProduct) (costs : List SheetsCost)
    (costLinks : List SheetsLink) (usd_rate cny_rate : ℚ) :
    List SheetsProductOut :=
  products.map (fun product =>
    let priceILS := toILS product.price_total product.currency usd_rate cny_rate
    let allocatedCosts :=
      costs.foldl
        (fun allocatedCosts cost =>
          allocatedCosts +
            sheetsCostShare cost products costLinks usd_rate cny_rate product) 0
    let finalCostILS := priceILS + allocatedCosts
    let finalCostPerUnitILS :=
      if product.quantity > 0 then finalCostILS / product.quantity else 0
    { product with
        priceILS := priceILS
        additionalCostsILS := allocatedCosts
        finalCostILS := finalCostILS
        finalCostPerUnitILS := finalCostPerUnitILS })

/-- A sheets cost with the computed `amountILS` of line 975. -/
structure SheetsCostOut extends SheetsCost where
  amountILS : ℚ
deriving DecidableEq, Repr

/-- The summary block of `getOrderFull` (sheets.ts lines 1046–1071).  Note
line 1050: `totalPaidILS` reduces over **all** payments — the sheets payment
model has no status. -/
def sheetsOrderSummary (products : List SheetsProductOut)
    (costs : List SheetsCostOut) (payments : List SheetsPayment) : OrderSummary :=
  let totalProductsILS := sumBy (·.priceILS) products
  let totalCostsILS := sumBy (·.amountILS) costs
  let totalOrderILS := totalProductsILS + totalCostsILS
  let totalPaidILS := sumBy (·.amountILS) payments
  let totalCBM := sumBy (·.cbm_total) products
  let totalKG := sumBy (·.kg_total) products
  { productCount := products.length
    totalProductsILS := totalProductsILS
    totalCostsILS := totalCostsILS
    totalOrderILS := totalOrderILS
    totalPaidILS := totalPaidILS
    balanceILS := totalOrderILS - totalPaidILS
    totalCBM := totalCBM
    totalKG := totalKG }

/-! ### Correspondence between the Convex and the Sheets records

The two implementations store the same data under different field names
(`productId`/`id`, `cbmTotal`/`cbm_total`, …); optional Convex strings
correspond to sheets cells that are `''` when blank. -/

/-- The sheets row corresponding to a Convex `products` row. -/
def toSheetsProduct (p : Product) : SheetsProduct :=
  { id := p.productId
    order_id := p.orderId
    name := p.name
    supplier := p.supplier.getD ""
    quantity := p.quantity
    price_per_unit := p.pricePerUnit
    price_total := p.priceTotal
    currency := p.currency
    cbm_per_unit := p.cbmPerUnit
    cbm_total := p.cbmTotal
    kg_per_unit := p.kgPerUnit
    kg_total := p.kgTotal
    order_date := p.orderDate.getD ""
    notes := p.notes.getD "" }

/-- The sheets row corresponding to a Convex `additionalCosts` row. -/
def toSheetsCost (c : AdditionalCost) : SheetsCost :=
  { id := c.costId
    order_id := c.orderId
    description := c.description
    amount := c.amount
    currency := c.currency
    allocation_method := c.allocationMethod
    notes := c.notes.getD "" }

/-- The sheets row corresponding to a Convex `costProductLinks` row (the
sheets link row carries its own `id` column, absent from the Convex schema). -/
def toSheetsLink (rowId : String) (l : CostProductLink) : SheetsLink :=
  { id := rowId
    cost_id := l.costId
    product_id := l.productId
    is_linked := l.isLinked }

/-! ## Convex mutations

`generateId`, `Date.now()` and `new Date()` are external inputs; the embedded
mutations take the generated ids and date strings as parameters.  JS
`x || dflt` on an optional string is falsy for both `undefined` and `""`. -/

/-- JS `x || dflt` for an optional string argument. -/
def jsOr (x : Option String) (dflt : String) : String :=
  match x with
  | some s => if s = "" then dflt else s
  | none => dflt

/-- The `args` validator of `addProduct` (convex/products.ts lines 26–40). -/
structure AddProductArgs where
  orderId : String
  name : String
  supplier : Option String
  quantity : ℚ
  pricePerUnit : ℚ
  priceTotal : ℚ
  currency : String
  cbmPerUnit : ℚ
  cbmTotal : ℚ
  kgPerUnit : ℚ
  kgTotal : ℚ
  orderDate : Option String
  notes : Option String
deriving DecidableEq, Repr

/-- `addProduct` (convex/products.ts lines 25–83).  `productId` and
`paymentId` stand for the two `generateId` calls, `today` for
`new Date().toISOString().split("T")[0]`. -/
def addProduct (db : DB) (args : AddProductArgs) (productId paymentId : String)
    (today : String) : String × DB :=
  let db := { db with products := db.products ++
    [({ productId := productId
        orderId := args.orderId
        name := args.name
        supplier := args.supplier
        quantity := args.quantity
        pricePerUnit := args.pricePerUnit
        priceTotal := args.priceTotal
        currency := args.currency
        cbmPerUnit := args.cbmPerUnit
        cbmTotal := args.cbmTotal
        kgPerUnit := args.kgPerUnit
        kgTotal := args.kgTotal
        orderDate := args.orderDate
        notes := args.notes } : Product)] }
  -- Auto-create pending payment for this product
  let paymentCurrency :=
    if args.currency = "USD" ∨ args.currency = "CNY" ∨ args.currency = "ILS"
    then args.currency else "USD"
  let db := { db with payments := db.payments ++
    [({ paymentId := paymentId
        orderId := args.orderId
        date := jsOr args.orderDate today
        amount := args.priceTotal
        currency := paymentCurrency
        payee := some (jsOr args.supplier "")
        description := some ("תשלום עבור " ++ args.name)
        reference := none
        status := .pending } : Payment)] }
  -- Link the payment to the product
  let db := { db with paymentProductLinks := db.paymentProductLinks ++
    [({ paymentId := paymentId, productId := productId } : PaymentProductLink)] }
  (productId, db)

/-- The `args` validator of `addCost` (convex/costs.ts lines 43–56). -/
structure AddCostArgs where
  orderId : String
  description : String
  amount : ℚ
  currency : String
  allocationMethod : AllocationMethod
  notes : Option String
deriving DecidableEq, Repr

/-- `addCost` (convex/costs.ts lines 42–88). -/
def addCost (db : DB) (args : AddCostArgs) (costId paymentId : String)
    (today : String) : String × DB :=
  let db := { db with additionalCosts := db.additionalCosts ++
    [({ costId := costId
        orderId := args.orderId
        description := args.description
        amount := args.amount
        currency := args.currency
        allocationMethod := args.allocationMethod
        notes := args.notes } : AdditionalCost)] }
  -- Auto-create pending payment for this cost
  let db := { db with payments := db.payments ++
    [({ paymentId := paymentId
        orderId := args.orderId
        date := today
        amount := args.amount
        currency := args.currency
        payee := some ""
        description := some ("תשלום עבור " ++ args.description)
        reference := none
        status := .pending } : Payment)] }
  -- Link the payment to the cost
  let db := { db with paymentCostLinks := db.paymentCostLinks ++
    [({ paymentId := paymentId, costId := costId } : PaymentCostLink)] }
  (costId, db)

/-- `ctx.db.delete(doc._id)` for a row held from an *earlier* read: it
removes the row if it is still stored, and **throws** — aborting and rolling
back the whole mutation, modelled as `none` — if the row was already deleted
(in `deleteProduct` / `deleteCost` this happens when an earlier loop
iteration cascade-deleted the links of a pending payment that a later
iterated link also points at). -/
def deleteRow (rows : List α) (pred : α → Bool) : Option (List α) :=
  if rows.any pred then some (rows.eraseP pred) else none

/-- The body of the `for (const link of paymentLinks)` loop of `deleteProduct`
(convex/products.ts lines 175–206): look up the linked payment; a pending
payment is deleted together with every `paymentProductLinks` and
`paymentCostLinks` row carrying its id (those rows are freshly collected, so
these deletes cannot throw); otherwise `ctx.db.delete(link._id)` deletes only
the iterated link row — and throws (`none`) if that row is already gone. -/
def cascadeProductLink (db : DB) (link : PaymentProductLink) : Option DB :=
  match db.payments.find? (fun p => p.paymentId == link.paymentId) with
  | some payment =>
    if payment.status = .pending then
      some { db with
        paymentProductLinks :=
          db.paymentProductLinks.filter (fun l => !(l.paymentId == link.paymentId))
        paymentCostLinks :=
          db.paymentCostLinks.filter (fun l => !(l.paymentId == link.paymentId))
        payments := db.payments.eraseP (fun p => p.paymentId == link.paymentId) }
    else
      (deleteRow db.paymentProductLinks (fun l => l == link)).map
        (fun rows => { db with paymentProductLinks := rows })
  | none =>
      (deleteRow db.paymentProductLinks (fun l => l == link)).map
        (fun rows => { db with paymentProductLinks := rows })

/-- `deleteProduct` (convex/products.ts lines 139–213).  `none` is the
mutation throwing (and rolling back); `some (false, db)` is the
product-not-found early return. -/
def deleteProduct (db : DB) (productId : String) : Option (Bool × DB) :=
  match db.products.find? (fun p => p.productId == productId) with
  | none => some (false, db)
  | some _ =>
    -- Delete related cost-product links
    let db := { db with costProductLinks :=
      db.costProductLinks.filter (fun l => !(l.productId == productId)) }
    -- Delete related product milestones
    let db := { db with productMilestones :=
      db.productMilestones.filter (fun m => !(m.productId == productId)) }
    -- Delete related payment-product links and pending payments
    let paymentLinks :=
      db.paymentProductLinks.filter (fun l => l.productId == productId)
    (paymentLinks.foldlM cascadeProductLink db).map
      -- Delete the product
      (fun db =>
        (true, { db with
            products := db.products.eraseP
              (fun p => p.productId == productId) }))

/-- The body of the `for (const link of paymentLinks)` loop of `deleteCost`
(convex/costs.ts lines 153–184); the error path is as in
`cascadeProductLink`. -/
def cascadeCostLink (db : DB) (link : PaymentCostLink) : Option DB :=
  match db.payments.find? (fun p => p.paymentId == link.paymentId) with
  | some payment =>
    if payment.status = .pending then
      some { db with
        paymentProductLinks :=
          db.paymentProductLinks.filter (fun l => !(l.paymentId == link.paymentId))
        paymentCostLinks :=
          db.paymentCostLinks.filter (fun l => !(l.paymentId == link.paymentId))
        payments := db.payments.eraseP (fun p => p.paymentId == link.paymentId) }
    else
      (deleteRow db.paymentCostLinks (fun l => l == link)).map
        (fun rows => { db with paymentCostLinks := rows })
  | none =>
      (deleteRow db.paymentCostLinks (fun l => l == link)).map
        (fun rows => { db with paymentCostLinks := rows })

/-- `deleteCost` (convex/costs.ts lines 127–191); `none` is the mutation
throwing. -/
def deleteCost (db : DB) (costId : String) : Option (Bool × DB) :=
  match db.additionalCosts.find? (fun c => c.costId == costId) with
  | none => some (false, db)
  | some _ =>
    -- Delete related cost-product links
    let db := { db with costProductLinks :=
      db.costProductLinks.filter (fun l => !(l.costId == costId)) }
    -- Delete related payment-cost links and pending payments
    let paymentLinks := db.paymentCostLinks.filter (fun l => l.costId == costId)
    (paymentLinks.foldlM cascadeCostLink db).map
      -- Delete the cost
      (fun db =>
        (true, { db with
            additionalCosts := db.additionalCosts.eraseP
              (fun c => c.costId == costId) }))

/-- The `args` validator of `createOrder` (convex/orders.ts lines 177–185). -/
structure CreateOrderArgs where
  orderName : String
  supplier : Option String
  usdRate : ℚ
  cnyRate : ℚ
  status : Option String
  notes : Option String
  estimatedArrival : Option String
deriving DecidableEq, Repr

/-- `String(orderNum).padStart(3, "0")`. -/
def padStart3 (s : String) : String :=
  String.mk (List.replicate (3 - s.length) '0') ++ s

/-- `createOrder` (convex/orders.ts lines 176–206).  `year` stands for
`new Date().getFullYear()`, `nowISO` for `new Date().toISOString()`.  The
sequence number is `existingOrders.length + 1`. -/
def createOrder (db : DB) (args : CreateOrderArgs) (year : Nat)
    (nowISO : String) : String × DB :=
  let orderNum := db.orders.length + 1
  let orderId := "PO-" ++ toString year ++ "-" ++ padStart3 (toString orderNum)
  let db := { db with orders := db.orders ++
    [({ orderId := orderId
        orderName := args.orderName
        supplier := args.supplier
        usdRate := args.usdRate
        cnyRate := args.cnyRate
        createdDate := nowISO
        status := jsOr args.status "חדש"
        notes := args.notes
        estimatedArrival := args.estimatedArrival } : Order)] }
  (orderId, db)

/-- `deleteOrder` (convex/orders.ts lines 242–342). -/
def deleteOrder (db : DB) (orderId : String) : Bool × DB :=
  match db.orders.find? (fun o => o.orderId == orderId) with
  | none => (false, db)
  | some _ =>
    -- Delete related products (with their milestones and cost-product links)
    let products := db.products.filter (fun p => p.orderId == orderId)
    let db := products.foldl
      (fun db product =>
        let db := { db with productMilestones :=
          db.productMilestones.filter (fun m => !(m.productId == product.productId)) }
        let db := { db with costProductLinks :=
          db.costProductLinks.filter (fun l => !(l.productId == product.productId)) }
        { db with products := db.products.eraseP (fun p => p == product) })
      db
    -- Delete related costs (with their cost-product links)
    let costs := db.additionalCosts.filter (fun c => c.orderId == orderId)
    let db := costs.foldl
      (fun db cost =>
        let db := { db with costProductLinks :=
          db.costProductLinks.filter (fun l => !(l.costId == cost.costId)) }
        { db with additionalCosts :=
          db.additionalCosts.eraseP (fun c => c == cost) })
      db
    -- Delete related payments and their links
    let payments := db.payments.filter (fun p => p.orderId == orderId)
    let db := payments.foldl
      (fun db payment =>
        let db := { db with paymentProductLinks :=
          db.paymentProductLinks.filter (fun l => !(l.paymentId == payment.paymentId)) }
        let db := { db with paymentCostLinks :=
          db.paymentCostLinks.filter (fun l => !(l.paymentId == payment.paymentId)) }
        { db with payments := db.payments.eraseP (fun p => p == payment) })
      db
    -- Delete order milestones
    let db := { db with orderMilestones :=
      db.orderMilestones.filter (fun m => !(m.orderId == orderId)) }
    -- Delete the order itself
    let db := { db with orders := db.orders.eraseP (fun o => o.orderId == orderId) }
    (true, db)

/-- No stored row references payment id `x`: no payment row carries it and no
`paymentProductLinks` / `paymentCostLinks` row points at it. -/
def noPaymentRefs (db : DB) (x : String) : Prop :=
  (∀ p ∈ db.payments, p.paymentId ≠ x) ∧
  (∀ l ∈ db.paymentProductLinks, l.paymentId ≠ x) ∧
  (∀ l ∈ db.paymentCostLinks, l.paymentId ≠ x)

/-! ## Concrete instances used by witnesses and counterexamples -/

/-- A pending ₪100 payment as the Convex summary sees it. -/
def pendingPay100 : PaymentWithILS :=
  { paymentId := "PAY-1", orderId := "PO-2025-001", date := "2025-01-01",
    amount := 100, currency := "ILS", payee := some "", description := none,
    reference := none, status := .pending, amountILS := 100 }

/-- The same payment as the sheets implementation stores it: same key, order,
date, amount and currency — the sheets payment schema has no status column. -/
def sheetsPay100 : SheetsPayment :=
  { id := "PAY-1", order_id := "PO-2025-001", product_id := "", cost_id := "",
    date := "2025-01-01", amount := 100, currency := "ILS", payee := "",
    description := "", reference := "", amountILS := 100 }

/-- An approved ₪7 payment. -/
def approvedPay7 : PaymentWithILS :=
  { paymentId := "PAY-2", orderId := "PO-2025-001", date := "2025-01-02",
    amount := 7, currency := "ILS", payee := some "", description := none,
    reference := none, status := .approved, amountILS := 7 }

/-- Product A of the spec's end-to-end scenario: $100 total, 2 CBM, 10 units. -/
def productA : Product :=
  { productId := "PROD-A", orderId := "PO-2025-001", name := "A",
    supplier := none, quantity := 10, pricePerUnit := 10, priceTotal := 100,
    currency := "USD", cbmPerUnit := 1/5, cbmTotal := 2, kgPerUnit := 0,
    kgTotal := 0, orderDate := none, notes := none }

/-- Product B of the spec's end-to-end scenario: $200 total, 8 CBM, 5 units. -/
def productB : Product :=
  { productA with
      productId := "PROD-B"
      name := "B"
      quantity := 5
      pricePerUnit := 40
      priceTotal := 200
      cbmTotal := 8 }

/-- A $10 cost allocated equally (method שווה), with no explicit links. -/
def costEqual10 : AdditionalCost :=
  { costId := "COST-EQ", orderId := "PO-2025-001", description := "misc",
    amount := 10, currency := "USD", allocationMethod := .equal, notes := none }

/-- A $20 cost allocated by volume (method נפח). -/
def costVolume20 : AdditionalCost :=
  { costId := "COST-VOL", orderId := "PO-2025-001", description := "freight",
    amount := 20, currency := "USD", allocationMethod := .byVolume,
    notes := none }

/-- A product with zero volume, weight and quantity. -/
def productZero : Product :=
  { productA with
      productId := "PROD-Z"
      name := "Z"
      quantity := 0
      pricePerUnit := 0
      priceTotal := 0
      cbmTotal := 0 }

/-- The empty store. -/
def db0 : DB := ⟨[], [], [], [], [], [], [], [], []⟩

/-- Arguments for a minimal order. -/
def orderArgs : CreateOrderArgs :=
  { orderName := "order", supplier := none, usdRate := 376/100, cnyRate := 1/2,
    status := none, notes := none, estimatedArrival := none }

/-- A pending payment row linked to product `PROD-A` of order `PO-2025-001`. -/
def pendingPaymentRow : Payment :=
  { paymentId := "PAY-P", orderId := "PO-2025-001", date := "2025-01-01",
    amount := 100, currency := "USD", payee := some "", description := none,
    reference := none, status := .pending }

/-- An approved payment row linked to product `PROD-A` and cost `COST-EQ`. -/
def approvedPaymentRow : Payment :=
  { paymentId := "PAY-A", orderId := "PO-2025-001", date := "2025-01-02",
    amount := 50, currency := "USD", payee := some "", description := none,
    reference := none, status := .approved }

/-- A store holding product A with one pending payment (the auto-created
stub) linked to it, plus cost `COST-EQ` with its own pending payment. -/
def dbPending : DB :=
  { orders := []
    products := [productA]
    additionalCosts := [costEqual10]
    costProductLinks := [⟨"COST-EQ", "PROD-A", true⟩]
    payments := [pendingPaymentRow,
      { pendingPaymentRow with paymentId := "PAY-C" }]
    paymentProductLinks := [⟨"PAY-P", "PROD-A"⟩]
    paymentCostLinks := [⟨"PAY-C", "COST-EQ"⟩]
    orderMilestones := []
    productMilestones := [] }

/-- A store holding products A and B where the payment linked to product A
and to cost `COST-EQ` has been approved. -/
def dbApproved : DB :=
  { orders := []
    products := [productA, productB]
    additionalCosts := [costEqual10]
    costProductLinks := []
    payments := [approvedPaymentRow]
    paymentProductLinks := [⟨"PAY-A", "PROD-A"⟩, ⟨"PAY-A", "PROD-B"⟩]
    paymentCostLinks := [⟨"PAY-A", "COST-EQ"⟩]
    orderMilestones := []
    productMilestones := [] }

/-! ## General list lemmas used by the development -/

theorem sumBy_go (f : α → ℚ) (l : List α) (a : ℚ) :
    l.foldl (fun sum x => sum + f x) a = a + (l.map f).sum := by
  induction l generalizing a with
  | nil => simp
  | cons x t ih => simp [ih, add_assoc]

theorem sumBy_eq_sum (f : α → ℚ) (l : List α) : sumBy f l = (l.map f).sum := by
  simpa using sumBy_go f l 0

theorem mem_eraseP_of_not {p : α → Bool} {l : List α} {a : α}
    (hm : a ∈ l) (hn : ¬ p a) : a ∈ l.eraseP p := by
  induction l with
  | nil => cases hm
  | cons b t ih =>
    by_cases hb : p b
    · rw [List.eraseP_cons_of_pos hb]
      rcases List.mem_cons.mp hm with h | h
      · exact absurd hb (h ▸ hn)
      · exact h
    · rw [List.eraseP_cons_of_neg (by simpa using hb)]
      rcases List.mem_cons.mp hm with h | h
      · exact h ▸ List.mem_cons_self _ _
      · exact List.mem_cons_of_mem _ (ih h)

theorem eraseP_no_match {p : α → Bool} {l : List α} (h : l.countP p ≤ 1) :
    ∀ x ∈ l.eraseP p, ¬ p x := by
  induction l with
  | nil => intro x hx; cases hx
  | cons b t ih =>
    by_cases hb : p b
    · rw [List.eraseP_cons_of_pos hb]
      rw [List.countP_cons_of_pos _ _ hb] at h
      have h0 : t.countP p = 0 := by omega
      intro x hx
      exact (List.countP_eq_zero.mp h0) x hx
    · rw [List.eraseP_cons_of_neg (by simpa using hb)]
      rw [List.countP_cons_of_neg _ _ (by simpa using hb)] at h
      intro x hx
      rcases List.mem_cons.mp hx with hx | hx
      · exact hx ▸ hb
      · exact ih h x hx

theorem countP_le_one_of_nodup_map {f : α → β} [DecidableEq β] {l : List α}
    (h : (l.map f).Nodup) (x : β) : l.countP (fun a => f a == x) ≤ 1 := by
  induction l with
  | nil => simp [List.countP_nil]
  | cons b t ih =>
    rw [List.map_cons, List.nodup_cons] at h
    by_cases hb : f b = x
    · rw [List.countP_cons_of_pos _ _ (by simpa using hb)]
      have h0 : t.countP (fun a => f a == x) = 0 := by
        rw [List.countP_eq_zero]
        intro a ha hfa
        exact h.1 (by
          rw [List.mem_map]
          exact ⟨a, ha, by rw [(by simpa using hfa : f a = x), hb]⟩)
      omega
    · rw [List.countP_cons_of_neg _ _ (by simpa using hb)]
      exact ih h.2

theorem countP_filter_eq (p q : α → Bool) (l : List α) :
    (l.filter q).countP p = l.countP (fun a => p a && q a) := by
  induction l with
  | nil => rfl
  | cons a t ih =>
    by_cases h : q a <;> by_cases h2 : p a <;>
      simp [List.filter_cons, List.countP_cons, h, h2, ih]

theorem countP_eraseP_le (p q : α → Bool) (l : List α) :
    (l.eraseP q).countP p ≤ l.countP p :=
  (List.eraseP_sublist l).countP_le p

theorem countP_eraseP_of_imp {p q : α → Bool} (l : List α)
    (himp : ∀ a, q a → ¬ p a) : (l.eraseP q).countP p = l.countP p := by
  induction l with
  | nil => rfl
  | cons a t ih =>
    by_cases hq : q a
    · rw [List.eraseP_cons_of_pos hq, List.countP_cons_of_neg _ _ (himp a hq)]
    · rw [List.eraseP_cons_of_neg (by simpa using hq)]
      by_cases hp : p a
      · rw [List.countP_cons_of_pos _ _ hp, List.countP_cons_of_pos _ _ hp, ih]
      · rw [List.countP_cons_of_neg _ _ hp, List.countP_cons_of_neg _ _ hp, ih]

theorem countP_eraseP_of_pos {p q : α → Bool} (l : List α)
    (himp : ∀ a, q a → p a) (hex : ∃ a ∈ l, q a) :
    (l.eraseP q).countP p + 1 = l.countP p := by
  induction l with
  | nil => simp at hex
  | cons a t ih =>
    by_cases hq : q a
    · rw [List.eraseP_cons_of_pos hq, List.countP_cons_of_pos _ _ (himp a hq)]
    · rw [List.eraseP_cons_of_neg (by simpa using hq)]
      have hex₂ : ∃ x ∈ t, q x := by
        rcases hex with ⟨x, hx, hqx⟩
        rcases List.mem_cons.mp hx with hx | hx
        · exact absurd (hx ▸ hqx) hq
        · exact ⟨x, hx, hqx⟩
      by_cases hp : p a
      · rw [List.countP_cons_of_pos _ _ hp, List.countP_cons_of_pos _ _ hp,
          ← ih hex₂]
      · rw [List.countP_cons_of_neg _ _ hp, List.countP_cons_of_neg _ _ hp,
          ih hex₂]

/-! ## C7 — currency conversion -/

/-- C7: `toILS` is a total function with `toILS a "USD" usd cny = a * usd`,
`toILS a "CNY" usd cny = a * cny`, `toILS a "ILS" usd cny = a`, and for every
other currency string the USD-rate fallback `a * usd`. -/
theorem toILS_conversion (a usd cny : ℚ) :
    toILS a "USD" usd cny = a * usd ∧
    toILS a "CNY" usd cny = a * cny ∧
    toILS a "ILS" usd cny = a ∧
    ∀ c : String, c ≠ "USD" → c ≠ "CNY" → c ≠ "ILS" →
      toILS a c usd cny = a * usd := by
  refine ⟨by simp [toILS], by simp [toILS], by simp [toILS], ?_⟩
  intro c h1 h2 h3
  simp [toILS, h1, h2, h3]

/-- Witness for `toILS_conversion` at amount 2, rates (3, 5), and the
unsupported currency "EUR". -/
theorem toILS_conversion_witness :
    ("EUR" ≠ "USD" ∧ "EUR" ≠ "CNY" ∧ "EUR" ≠ "ILS") ∧
      toILS 2 "EUR" 3 5 = 2 * 3 :=
  ⟨⟨by decide, by decide, by decide⟩,
    (toILS_conversion 2 3 5).2.2.2 "EUR" (by decide) (by decide) (by decide)⟩

/-! ## C1 — only approved payments count toward `totalPaidILS` -/

/-- C1 (amended): the Convex `calculateOrderSummary` sums `amountILS` over
exactly the approved payments — inserting a pending payment leaves
`totalPaidILS` unchanged, inserting an approved one adds exactly its
`amountILS` — and `balanceILS = totalOrderILS - totalPaidILS`; the summary of
the Sheets `getOrderFull`, by contrast, sums `amountILS` over **all** its
payments (its payment model has no status) while still satisfying the balance
equation. -/
theorem totalPaid_only_approved
    (ps : List ProductWithCosts) (cs : List CostWithILS)
    (pays : List PaymentWithILS) (sps : List SheetsProductOut)
    (scs : List SheetsCostOut) (spays : List SheetsPayment) :
    (calculateOrderSummary ps cs pays).totalPaidILS
      = ((pays.filter (fun p => p.status == PayStatus.approved)).map
          (fun p => p.amountILS)).sum ∧
    (calculateOrderSummary ps cs pays).balanceILS
      = (calculateOrderSummary ps cs pays).totalOrderILS
        - (calculateOrderSummary ps cs pays).totalPaidILS ∧
    (∀ p : PaymentWithILS, p.status = .pending →
      (calculateOrderSummary ps cs (p :: pays)).totalPaidILS
        = (calculateOrderSummary ps cs pays).totalPaidILS) ∧
    (∀ p : PaymentWithILS, p.status = .approved →
      (calculateOrderSummary ps cs (p :: pays)).totalPaidILS
        = p.amountILS + (calculateOrderSummary ps cs pays).totalPaidILS) ∧
    (sheetsOrderSummary sps scs spays).totalPaidILS
      = (spays.map (fun p => p.amountILS)).sum ∧
    (sheetsOrderSummary sps scs spays).balanceILS
      = (sheetsOrderSummary sps scs spays).totalOrderILS
        - (sheetsOrderSummary sps scs spays).totalPaidILS := by
  refine ⟨by simp [calculateOrderSummary, sumBy_eq_sum], rfl, ?_, ?_,
    by simp [sheetsOrderSummary, sumBy_eq_sum], rfl⟩
  · intro p hp
    simp [calculateOrderSummary, sumBy_eq_sum, List.filter_cons, hp]
  · intro p hp
    simp [calculateOrderSummary, sumBy_eq_sum, List.filter_cons, hp]

/-- Witness for `totalPaid_only_approved`: adding the pending ₪100 payment on
top of a single approved ₪7 payment leaves `totalPaidILS` unchanged. -/
theorem totalPaid_only_approved_witness :
    pendingPay100.status = .pending ∧
    (calculateOrderSummary [] [] (pendingPay100 :: [approvedPay7])).totalPaidILS
      = (calculateOrderSummary [] [] [approvedPay7]).totalPaidILS :=
  ⟨rfl, (totalPaid_only_approved [] [] [approvedPay7] [] [] []).2.2.1
    pendingPay100 rfl⟩

/-- C1 counterexample: on the same stored payment (key `PAY-1`, ₪100, not
approved), the sheets summary reports `totalPaidILS = 100` while the
approved-only Convex summary reports `0`: the summary built by the Sheets
`getOrderFull` does **not** sum over only the approved payments. -/
theorem sheets_totalPaid_counts_pending :
    (sheetsOrderSummary [] [] [sheetsPay100]).totalPaidILS = 100 ∧
    (calculateOrderSummary [] [] [pendingPay100]).totalPaidILS = 0 ∧
    (100 : ℚ) ≠ 0 := by
  refine ⟨?_, ?_, by norm_num⟩ <;>
    simp [sheetsOrderSummary, calculateOrderSummary, sumBy, sheetsPay100,
      pendingPay100]

/-! ## C2 — a cost with no explicit links allocates across every product -/

/-- C2: when a cost has no `costProductLinks` row with `isLinked = true`, the
allocator treats every product of the order as linked: the linked set equals
the full product list (so it is nonempty whenever the order has a product),
and every product's share is computed by the cost's allocation method over
that full list. -/
theorem noLinks_allocates_to_all
    (cost : AdditionalCost) (products : List Product)
    (links : List CostProductLink) (usdRate cnyRate : ℚ)
    (hno : links.filter (fun l => l.costId == cost.costId && l.isLinked) = [])
    (hne : products ≠ []) :
    linkedProductsFor cost products links = products ∧
    0 < (linkedProductsFor cost products links).length ∧
    ∀ p ∈ products,
      costShareForProduct cost products links usdRate cnyRate p =
        methodShare cost.allocationMethod products usdRate cnyRate
          (toILS cost.amount cost.currency usdRate cnyRate) p := by
  have hids : linkedProductIdsFor cost links = [] := by
    simp [linkedProductIdsFor, hno]
  have hlp : linkedProductsFor cost products links = products := by
    simp [linkedProductsFor, hids]
  have hlen : products.length ≠ 0 := fun h => hne (List.length_eq_zero.mp h)
  refine ⟨hlp, by simpa [hlp] using Nat.pos_of_ne_zero hlen, ?_⟩
  intro p _
  unfold costShareForProduct
  rw [hids, hlp]
  simp [hlen]

/-- Witness for `noLinks_allocates_to_all`: the equal-method cost with an
empty link table over products A and B. -/
theorem noLinks_allocates_to_all_witness :
    linkedProductsFor costEqual10 [productA, productB] [] =
      [productA, productB] ∧
    costShareForProduct costEqual10 [productA, productB] [] (376/100) (1/2)
        productA =
      methodShare costEqual10.allocationMethod [productA, productB] (376/100)
        (1/2)
        (toILS costEqual10.amount costEqual10.currency (376/100) (1/2))
        productA := by
  have h := noLinks_allocates_to_all costEqual10 [productA, productB] []
    (376/100) (1/2) rfl (by simp)
  exact ⟨h.1, h.2.2 productA (by simp)⟩

/-! ## C8 — equal allocation gives `costILS / n` to each linked product -/

/-- C8: for a cost with allocation method שווה and a nonempty linked set of
`n` products, every linked product's share is `costILS / n` — independent of
any product attribute — and the `n` shares sum to `costILS` exactly. -/
theorem equal_allocation
    (cost : AdditionalCost) (products : List Product)
    (links : List CostProductLink) (usdRate cnyRate : ℚ)
    (hm : cost.allocationMethod = .equal)
    (hne : linkedProductsFor cost products links ≠ []) :
    (∀ p ∈ linkedProductsFor cost products links,
      costShareForProduct cost products links usdRate cnyRate p =
        toILS cost.amount cost.currency usdRate cnyRate
          / ((linkedProductsFor cost products links).length : ℚ)) ∧
    sumBy (costShareForProduct cost products links usdRate cnyRate)
        (linkedProductsFor cost products links)
      = toILS cost.amount cost.currency usdRate cnyRate := by
  have hlen : (linkedProductsFor cost products links).length ≠ 0 :=
    fun h => hne (List.length_eq_zero.mp h)
  have hshare : ∀ p ∈ linkedProductsFor cost products links,
      costShareForProduct cost products links usdRate cnyRate p =
        toILS cost.amount cost.currency usdRate cnyRate
          / ((linkedProductsFor cost products links).length : ℚ) := by
    intro p hp
    unfold linkedProductsFor at hp
    have hmem := List.mem_filter.mp hp
    simp only [costShareForProduct]
    rw [hmem.2]
    have hb : ((linkedProductsFor cost products links).length == 0) = false := by
      simpa using hlen
    rw [hb, hm]
    simp [methodShare]
  refine ⟨hshare, ?_⟩
  rw [sumBy_eq_sum, List.map_congr_left hshare]
  have hcast : ((linkedProductsFor cost products links).length : ℚ) ≠ 0 := by
    exact_mod_cast hlen
  simp [List.map_const, List.sum_replicate, nsmul_eq_mul]
  rw [mul_div_cancel₀ _ hcast]

/-- Witness for `equal_allocation`: the $10 שווה cost linked explicitly to
products A and B gives shares summing to its ILS value. -/
theorem equal_allocation_witness :
    costEqual10.allocationMethod = .equal ∧
    linkedProductsFor costEqual10 [productA, productB]
      [⟨"COST-EQ", "PROD-A", true⟩, ⟨"COST-EQ", "PROD-B", true⟩] ≠ [] ∧
    sumBy (costShareForProduct costEqual10 [productA, productB]
        [⟨"COST-EQ", "PROD-A", true⟩, ⟨"COST-EQ", "PROD-B", true⟩]
        (376/100) (1/2))
        (linkedProductsFor costEqual10 [productA, productB]
          [⟨"COST-EQ", "PROD-A", true⟩, ⟨"COST-EQ", "PROD-B", true⟩])
      = toILS costEqual10.amount costEqual10.currency (376/100) (1/2) := by
  have hne : linkedProductsFor costEqual10 [productA, productB]
      [⟨"COST-EQ", "PROD-A", true⟩, ⟨"COST-EQ", "PROD-B", true⟩] ≠ [] := by
    simp [linkedProductsFor, linkedProductIdsFor, costEqual10, productA,
      productB]
  exact ⟨rfl, hne,
    (equal_allocation costEqual10 [productA, productB]
      [⟨"COST-EQ", "PROD-A", true⟩, ⟨"COST-EQ", "PROD-B", true⟩]
      (376/100) (1/2) rfl hne).2⟩

/-! ## C9 — zero ratio denominators give zero shares; no division by zero -/

/-- C9: whenever the allocation-ratio denominator over the linked products is
zero (total CBM for נפח, total KG for משקל, total home-currency price for
עלות, total quantity for כמות), the product's share of that cost is exactly
`0`; and the checked allocator — every division instrumented by `divQ`, which
flags a zero divisor — always returns `some` of the unchecked share, so no
division by zero (the JS source of `NaN`/`Infinity` here) is ever evaluated. -/
theorem zero_denominator_zero_share
    (cost : AdditionalCost) (products : List Product)
    (links : List CostProductLink) (usdRate cnyRate : ℚ) (p : Product) :
    (cost.allocationMethod = .byVolume →
      sumBy (·.cbmTotal) (linkedProductsFor cost products links) = 0 →
      costShareForProduct cost products links usdRate cnyRate p = 0) ∧
    (cost.allocationMethod = .byWeight →
      sumBy (·.kgTotal) (linkedProductsFor cost products links) = 0 →
      costShareForProduct cost products links usdRate cnyRate p = 0) ∧
    (cost.allocationMethod = .byCost →
      sumBy (fun q => toILS q.priceTotal q.currency usdRate cnyRate)
        (linkedProductsFor cost products links) = 0 →
      costShareForProduct cost products links usdRate cnyRate p = 0) ∧
    (cost.allocationMethod = .byQuantity →
      sumBy (·.quantity) (linkedProductsFor cost products links) = 0 →
      costShareForProduct cost products links usdRate cnyRate p = 0) ∧
    costShareForProductChecked cost products links usdRate cnyRate p
      = some (costShareForProduct cost products links usdRate cnyRate p) := by
  refine ⟨?_, ?_, ?_, ?_, ?_⟩
  · intro hm hz
    unfold costShareForProduct
    rw [hm]
    simp only [methodShare, hz]
    split <;> simp
  · intro hm hz
    unfold costShareForProduct
    rw [hm]
    simp only [methodShare, hz]
    split <;> simp
  · intro hm hz
    unfold costShareForProduct
    rw [hm]
    simp only [methodShare, hz]
    split <;> simp
  · intro hm hz
    unfold costShareForProduct
    rw [hm]
    simp only [methodShare, hz]
    split <;> simp
  · simp only [costShareForProduct, costShareForProductChecked]
    cases hlink :
        (linkedProductIdsFor cost links).length == 0
          || (linkedProductIdsFor cost links).contains p.productId with
    | false => simp
    | true =>
      cases hemp : (linkedProductsFor cost products links).length == 0 with
      | true => simp
      | false =>
        simp only [Bool.not_true, Bool.false_eq_true, if_false]
        have hlenQ : ((linkedProductsFor cost products links).length : ℚ) ≠ 0 := by
          have hn : (linkedProductsFor cost products links).length ≠ 0 := by
            simpa using hemp
          exact_mod_cast hn
        cases hmethod : cost.allocationMethod with
        | equal => simp [methodShare, methodShareChecked, divQ, hlenQ]
        | byVolume =>
          simp only [methodShare, methodShareChecked]
          by_cases h : (0:ℚ) < sumBy (fun x => x.cbmTotal)
              (linkedProductsFor cost products links)
          · simp [h, divQ, ne_of_gt h]
          · simp [h]
        | byWeight =>
          simp only [methodShare, methodShareChecked]
          by_cases h : (0:ℚ) < sumBy (fun x => x.kgTotal)
              (linkedProductsFor cost products links)
          · simp [h, divQ, ne_of_gt h]
          · simp [h]
        | byCost =>
          simp only [methodShare, methodShareChecked]
          by_cases h : (0:ℚ) < sumBy
              (fun q => toILS q.priceTotal q.currency usdRate cnyRate)
              (linkedProductsFor cost products links)
          · simp [h, divQ, ne_of_gt h]
          · simp [h]
        | byQuantity =>
          simp only [methodShare, methodShareChecked]
          by_cases h : (0:ℚ) < sumBy (fun x => x.quantity)
              (linkedProductsFor cost products links)
          · simp [h, divQ, ne_of_gt h]
          · simp [h]

/-- Witness for `zero_denominator_zero_share`: the נפח cost over the single
zero-volume product allocates a zero share. -/
theorem zero_denominator_zero_share_witness :
    costVolume20.allocationMethod = .byVolume ∧
    sumBy (·.cbmTotal) (linkedProductsFor costVolume20 [productZero] []) = 0 ∧
    costShareForProduct costVolume20 [productZero] [] (376/100) (1/2)
      productZero = 0 := by
  have hz : sumBy (·.cbmTotal) (linkedProductsFor costVolume20 [productZero] [])
      = 0 := by
    simp [sumBy, linkedProductsFor, linkedProductIdsFor, productZero, productA]
  exact ⟨rfl, hz,
    (zero_denominator_zero_share costVolume20 [productZero] [] (376/100) (1/2)
      productZero).1 rfl hz⟩

/-! ## C10 — the Convex and the Sheets allocation engines agree -/

theorem sumBy_map (f : β → ℚ) (g : α → β) (l : List α) :
    sumBy f (l.map g) = sumBy (fun x => f (g x)) l := by
  rw [sumBy_eq_sum, sumBy_eq_sum, List.map_map]
  rfl

theorem sheets_linkedIds (c : AdditionalCost) (links : List CostProductLink)
    (idf : CostProductLink → String) :
    ((links.map (fun l => toSheetsLink (idf l) l)).filter
        (fun l => l.cost_id == (toSheetsCost c).id && l.is_linked)).map
      (·.product_id)
    = linkedProductIdsFor c links := by
  unfold linkedProductIdsFor
  rw [List.filter_map, List.map_map]
  rfl

theorem sheets_linkedProducts (ids : List String) (products : List Product) :
    (products.map toSheetsProduct).filter
        (fun p => ids.length == 0 || ids.contains p.id)
      = (products.filter
          (fun p => ids.length == 0 || ids.contains p.productId)).map
          toSheetsProduct := by
  rw [List.filter_map]
  rfl

theorem sheetsCostShare_agrees (c : AdditionalCost) (products : List Product)
    (links : List CostProductLink) (idf : CostProductLink → String)
    (usd cny : ℚ) (p : Product) :
    sheetsCostShare (toSheetsCost c) (products.map toSheetsProduct)
        (links.map (fun l => toSheetsLink (idf l) l)) usd cny (toSheetsProduct p)
      = costShareForProduct c products links usd cny p := by
  simp only [sheetsCostShare, costShareForProduct, linkedProductsFor]
  rw [sheets_linkedIds c links idf]
  simp only [toSheetsProduct, toSheetsCost]
  rw [sheets_linkedProducts]
  simp only [List.length_map, sumBy_map]
  simp only [toSheetsProduct]
  cases hb : (linkedProductIdsFor c links).length == 0
      || (linkedProductIdsFor c links).contains p.productId with
  | false => simp
  | true =>
    simp only [Bool.not_true, Bool.false_eq_true, if_false, if_true,
      eq_self_iff_true]
    cases hc : (products.filter (fun q =>
        (linkedProductIdsFor c links).length == 0
          || (linkedProductIdsFor c links).contains q.productId)).length == 0 with
    | true =>
      have h0 : (products.filter (fun q =>
          (linkedProductIdsFor c links).length == 0
            || (linkedProductIdsFor c links).contains q.productId)).length = 0 := by
        simpa using hc
      rw [h0]
      simp
    | false =>
      have h0 : (products.filter (fun q =>
          (linkedProductIdsFor c links).length == 0
            || (linkedProductIdsFor c links).contains q.productId)).length ≠ 0 := by
        simpa using hc
      rw [if_pos (Nat.pos_of_ne_zero h0)]
      cases hm : c.allocationMethod <;> rfl

/-- C10: on corresponding inputs — the same exchange rates and the sheets
rows obtained from the Convex rows by the field-name translation — the
allocation loop inside the Sheets `getOrderFull` computes the same
`priceILS`, `additionalCostsILS`, `finalCostILS` and `finalCostPerUnitILS`
for every product as the Convex `calculateProductCosts`. -/
theorem allocation_engines_agree (products : List Product)
    (costs : List AdditionalCost) (links : List CostProductLink)
    (idf : CostProductLink → String) (usd cny : ℚ) :
    (sheetsProductCalc (products.map toSheetsProduct)
        (costs.map toSheetsCost)
        (links.map (fun l => toSheetsLink (idf l) l)) usd cny).map
      (fun r => (r.priceILS, r.additionalCostsILS, r.finalCostILS,
        r.finalCostPerUnitILS))
    = (calculateProductCosts products costs links usd cny).map
      (fun r => (r.priceILS, r.additionalCostsILS, r.finalCostILS,
        r.finalCostPerUnitILS)) := by
  simp only [sheetsProductCalc, calculateProductCosts, List.map_map]
  refine List.map_congr_left ?_
  intro p _
  have halloc :
      (costs.map toSheetsCost).foldl
        (fun allocatedCosts cost =>
          allocatedCosts + sheetsCostShare cost (products.map toSheetsProduct)
            (links.map (fun l => toSheetsLink (idf l) l)) usd cny
            (toSheetsProduct p)) 0
      = costs.foldl
          (fun sum cost =>
            sum + costShareForProduct cost products links usd cny p) 0 := by
    rw [List.foldl_map]
    have hfun : (fun (a : ℚ) (c : AdditionalCost) =>
        a + sheetsCostShare (toSheetsCost c) (products.map toSheetsProduct)
          (links.map (fun l => toSheetsLink (idf l) l)) usd cny
          (toSheetsProduct p))
        = fun (a : ℚ) (c : AdditionalCost) =>
            a + costShareForProduct c products links usd cny p := by
      funext a c
      rw [sheetsCostShare_agrees c products links idf usd cny p]
    rw [hfun]
  simp only [Function.comp]
  rw [halloc]
  rfl

/-! ## C5 — creating a product or cost spawns exactly one pending payment -/

/-- C5: `addProduct` inserts, besides the new product, exactly one payment —
pending, with amount equal to the product's `priceTotal` — and exactly one
`paymentProductLinks` row joining that payment to the new product;
`addCost` does the same with the cost's `amount` and one `paymentCostLinks`
row.  No other payment or link row is touched. -/
theorem payment_stub_on_create (db : DB) (pargs : AddProductArgs)
    (cargs : AddCostArgs) (pid payid cid payid₂ today : String) :
    (∃ pay : Payment,
      (addProduct db pargs pid payid today).2.payments = db.payments ++ [pay] ∧
      pay.status = .pending ∧ pay.amount = pargs.priceTotal ∧
      pay.paymentId = payid ∧
      (addProduct db pargs pid payid today).2.paymentProductLinks
        = db.paymentProductLinks ++ [{ paymentId := payid, productId := pid }] ∧
      (addProduct db pargs pid payid today).2.paymentCostLinks
        = db.paymentCostLinks ∧
      ∃ prod : Product,
        (addProduct db pargs pid payid today).2.products
          = db.products ++ [prod] ∧ prod.productId = pid) ∧
    (∃ pay : Payment,
      (addCost db cargs cid payid₂ today).2.payments = db.payments ++ [pay] ∧
      pay.status = .pending ∧ pay.amount = cargs.amount ∧
      pay.paymentId = payid₂ ∧
      (addCost db cargs cid payid₂ today).2.paymentCostLinks
        = db.paymentCostLinks ++ [{ paymentId := payid₂, costId := cid }] ∧
      (addCost db cargs cid payid₂ today).2.paymentProductLinks
        = db.paymentProductLinks ∧
      ∃ cost : AdditionalCost,
        (addCost db cargs cid payid₂ today).2.additionalCosts
          = db.additionalCosts ++ [cost] ∧ cost.costId = cid) :=
  ⟨⟨_, rfl, rfl, rfl, rfl, rfl, rfl, _, rfl, rfl⟩,
   ⟨_, rfl, rfl, rfl, rfl, rfl, rfl, _, rfl, rfl⟩⟩

/-! ## C6 — order identifiers are not unique under create/delete sequences -/

/-- C6 (refuting the code): from the empty store, the sequence
`createOrder; createOrder; deleteOrder "PO-2026-001"; createOrder` (all in
year 2026) leaves two stored orders both carrying the id `PO-2026-002`:
`createOrder` computes the sequence number as `existingOrders.length + 1`,
so after a deletion it reissues the identifier of a surviving order. -/
theorem createOrder_id_collision :
    ((createOrder (deleteOrder (createOrder
        (createOrder db0 orderArgs 2026 "t").2 orderArgs 2026 "t").2
        "PO-2026-001").2 orderArgs 2026 "t").2.orders.map
      (fun o => o.orderId)) = ["PO-2026-002", "PO-2026-002"] := by
  decide

/-! ## C3 / C4 — the payment cascade of `deleteProduct` / `deleteCost`

The two mutations collect the link rows of the deleted entity and process
them one by one (`cascadeProductLink` / `cascadeCostLink`), each step either
succeeding or aborting the mutation (`none`).  The lemmas below characterise
a successful step, show when the whole fold succeeds, and track which
payment and link rows survive it. -/

theorem deleteRow_eq_some {rows rows' : List α} {pred : α → Bool}
    (h : deleteRow rows pred = some rows') :
    rows' = rows.eraseP pred ∧ ∃ r ∈ rows, pred r := by
  unfold deleteRow at h
  by_cases hmem : rows.any pred
  · rw [if_pos hmem] at h
    exact ⟨(Option.some.inj h).symm, List.any_eq_true.mp hmem⟩
  · rw [if_neg hmem] at h
    cases h

theorem deleteRow_of_mem {rows : List α} {pred : α → Bool}
    (h : ∃ r ∈ rows, pred r) :
    deleteRow rows pred = some (rows.eraseP pred) := by
  unfold deleteRow
  rw [if_pos (List.any_eq_true.mpr h)]

theorem countP_and_of_imp {p q : α → Bool} (l : List α)
    (h : ∀ a, p a = true → q a = true) :
    l.countP (fun a => p a && q a) = l.countP p := by
  induction l with
  | nil => rfl
  | cons a t ih =>
    by_cases hp : p a = true
    · rw [List.countP_cons_of_pos _ _ (by simp [hp, h a hp]),
        List.countP_cons_of_pos _ _ hp, ih]
    · rw [List.countP_cons_of_neg _ _ (by simp [hp]),
        List.countP_cons_of_neg _ _ hp, ih]

theorem cascadeProductLink_cases {db db₂ : DB} {l₀ : PaymentProductLink}
    (h : cascadeProductLink db l₀ = some db₂) :
    ((∃ q ∈ db.payments, q.paymentId = l₀.paymentId ∧ q.status = .pending) ∧
      db₂ = { db with
        paymentProductLinks := db.paymentProductLinks.filter
          (fun l => !(l.paymentId == l₀.paymentId))
        paymentCostLinks := db.paymentCostLinks.filter
          (fun l => !(l.paymentId == l₀.paymentId))
        payments := db.payments.eraseP
          (fun p => p.paymentId == l₀.paymentId) }) ∨
    ((∀ q, db.payments.find? (fun p => p.paymentId == l₀.paymentId) = some q →
        q.status ≠ .pending) ∧
      l₀ ∈ db.paymentProductLinks ∧
      db₂ = { db with
        paymentProductLinks := db.paymentProductLinks.eraseP
          (fun l => l == l₀) }) := by
  unfold cascadeProductLink at h
  cases hf : db.payments.find? (fun p => p.paymentId == l₀.paymentId) with
  | none =>
    rw [hf] at h
    dsimp only at h
    cases hd : deleteRow db.paymentProductLinks (fun l => l == l₀) with
    | none => rw [hd] at h; cases h
    | some rows =>
      rw [hd, Option.map_some'] at h
      obtain ⟨hrows, r, hr, hrl⟩ := deleteRow_eq_some hd
      refine Or.inr ⟨(fun q hq => by cases hq),
        (by simpa using hrl : r = l₀) ▸ hr, ?_⟩
      rw [← Option.some.inj h, hrows]
  | some payment =>
    rw [hf] at h
    dsimp only at h
    by_cases hs : payment.status = .pending
    · rw [if_pos hs] at h
      exact Or.inl ⟨⟨payment, List.mem_of_find?_eq_some hf,
        by simpa using List.find?_some hf, hs⟩, (Option.some.inj h).symm⟩
    · rw [if_neg hs] at h
      cases hd : deleteRow db.paymentProductLinks (fun l => l == l₀) with
      | none => rw [hd] at h; cases h
      | some rows =>
        rw [hd, Option.map_some'] at h
        obtain ⟨hrows, r, hr, hrl⟩ := deleteRow_eq_some hd
        refine Or.inr ⟨(fun q hq => by
            rw [← Option.some.inj hq]
            exact hs),
          (by simpa using hrl : r = l₀) ▸ hr, ?_⟩
        rw [← Option.some.inj h, hrows]

theorem cascadeCostLink_cases {db db₂ : DB} {l₀ : PaymentCostLink}
    (h : cascadeCostLink db l₀ = some db₂) :
    ((∃ q ∈ db.payments, q.paymentId = l₀.paymentId ∧ q.status = .pending) ∧
      db₂ = { db with
        paymentProductLinks := db.paymentProductLinks.filter
          (fun l => !(l.paymentId == l₀.paymentId))
        paymentCostLinks := db.paymentCostLinks.filter
          (fun l => !(l.paymentId == l₀.paymentId))
        payments := db.payments.eraseP
          (fun p => p.paymentId == l₀.paymentId) }) ∨
    ((∀ q, db.payments.find? (fun p => p.paymentId == l₀.paymentId) = some q →
        q.status ≠ .pending) ∧
      l₀ ∈ db.paymentCostLinks ∧
      db₂ = { db with
        paymentCostLinks := db.paymentCostLinks.eraseP
          (fun l => l == l₀) }) := by
  unfold cascadeCostLink at h
  cases hf : db.payments.find? (fun p => p.paymentId == l₀.paymentId) with
  | none =>
    rw [hf] at h
    dsimp only at h
    cases hd : deleteRow db.paymentCostLinks (fun l => l == l₀) with
    | none => rw [hd] at h; cases h
    | some rows =>
      rw [hd, Option.map_some'] at h
      obtain ⟨hrows, r, hr, hrl⟩ := deleteRow_eq_some hd
      refine Or.inr ⟨(fun q hq => by cases hq),
        (by simpa using hrl : r = l₀) ▸ hr, ?_⟩
      rw [← Option.some.inj h, hrows]
  | some payment =>
    rw [hf] at h
    dsimp only at h
    by_cases hs : payment.status = .pending
    · rw [if_pos hs] at h
      exact Or.inl ⟨⟨payment, List.mem_of_find?_eq_some hf,
        by simpa using List.find?_some hf, hs⟩, (Option.some.inj h).symm⟩
    · rw [if_neg hs] at h
      cases hd : deleteRow db.paymentCostLinks (fun l => l == l₀) with
      | none => rw [hd] at h; cases h
      | some rows =>
        rw [hd, Option.map_some'] at h
        obtain ⟨hrows, r, hr, hrl⟩ := deleteRow_eq_some hd
        refine Or.inr ⟨(fun q hq => by
            rw [← Option.some.inj hq]
            exact hs),
          (by simpa using hrl : r = l₀) ▸ hr, ?_⟩
        rw [← Option.some.inj h, hrows]

theorem cascadeProductLink_tables {db db₂ : DB} {l₀ : PaymentProductLink}
    (h : cascadeProductLink db l₀ = some db₂) :
    db₂.payments.Sublist db.payments ∧
    db₂.paymentProductLinks.Sublist db.paymentProductLinks ∧
    db₂.paymentCostLinks.Sublist db.paymentCostLinks := by
  rcases cascadeProductLink_cases h with ⟨-, hdb⟩ | ⟨-, -, hdb⟩ <;> rw [hdb]
  · exact ⟨List.eraseP_sublist _, List.filter_sublist _, List.filter_sublist _⟩
  · exact ⟨List.Sublist.refl _, List.eraseP_sublist _, List.Sublist.refl _⟩

theorem cascadeCostLink_tables {db db₂ : DB} {l₀ : PaymentCostLink}
    (h : cascadeCostLink db l₀ = some db₂) :
    db₂.payments.Sublist db.payments ∧
    db₂.paymentProductLinks.Sublist db.paymentProductLinks ∧
    db₂.paymentCostLinks.Sublist db.paymentCostLinks := by
  rcases cascadeCostLink_cases h with ⟨-, hdb⟩ | ⟨-, -, hdb⟩ <;> rw [hdb]
  · exact ⟨List.eraseP_sublist _, List.filter_sublist _, List.filter_sublist _⟩
  · exact ⟨List.Sublist.refl _, List.Sublist.refl _, List.eraseP_sublist _⟩

theorem noPaymentRefs_stepP {db db₂ : DB} {l₀ : PaymentProductLink}
    {x : String} (h : cascadeProductLink db l₀ = some db₂)
    (hn : noPaymentRefs db x) : noPaymentRefs db₂ x := by
  obtain ⟨h1, h2, h3⟩ := cascadeProductLink_tables h
  exact ⟨fun p hp => hn.1 p (h1.subset hp),
    fun l hl => hn.2.1 l (h2.subset hl),
    fun l hl => hn.2.2 l (h3.subset hl)⟩

theorem noPaymentRefs_stepC {db db₂ : DB} {l₀ : PaymentCostLink}
    {x : String} (h : cascadeCostLink db l₀ = some db₂)
    (hn : noPaymentRefs db x) : noPaymentRefs db₂ x := by
  obtain ⟨h1, h2, h3⟩ := cascadeCostLink_tables h
  exact ⟨fun p hp => hn.1 p (h1.subset hp),
    fun l hl => hn.2.1 l (h2.subset hl),
    fun l hl => hn.2.2 l (h3.subset hl)⟩

theorem noPaymentRefs_foldP {ls : List PaymentProductLink} {db db' : DB}
    {x : String} (hok : ls.foldlM cascadeProductLink db = some db')
    (hn : noPaymentRefs db x) : noPaymentRefs db' x := by
  induction ls generalizing db with
  | nil =>
    rw [List.foldlM_nil] at hok
    rw [← Option.some.inj hok]
    exact hn
  | cons l₀ t ih =>
    rw [List.foldlM_cons] at hok
    cases h₁ : cascadeProductLink db l₀ with
    | none => rw [h₁] at hok; cases hok
    | some db₁ =>
      rw [h₁] at hok
      simp only [Option.bind_eq_bind, Option.some_bind] at hok
      exact ih hok (noPaymentRefs_stepP h₁ hn)

theorem noPaymentRefs_foldC {ls : List PaymentCostLink} {db db' : DB}
    {x : String} (hok : ls.foldlM cascadeCostLink db = some db')
    (hn : noPaymentRefs db x) : noPaymentRefs db' x := by
  induction ls generalizing db with
  | nil =>
    rw [List.foldlM_nil] at hok
    rw [← Option.some.inj hok]
    exact hn
  | cons l₀ t ih =>
    rw [List.foldlM_cons] at hok
    cases h₁ : cascadeCostLink db l₀ with
    | none => rw [h₁] at hok; cases hok
    | some db₁ =>
      rw [h₁] at hok
      simp only [Option.bind_eq_bind, Option.some_bind] at hok
      exact ih hok (noPaymentRefs_stepC h₁ hn)

theorem cascadeProductLink_payment_mem {db db₂ : DB} {l₀ : PaymentProductLink}
    {p : Payment} (h : cascadeProductLink db l₀ = some db₂)
    (hp : p ∈ db.payments) (hne : p.paymentId ≠ l₀.paymentId) :
    p ∈ db₂.payments := by
  rcases cascadeProductLink_cases h with ⟨-, hdb⟩ | ⟨-, -, hdb⟩ <;> rw [hdb]
  · exact mem_eraseP_of_not hp (by simpa using hne)
  · exact hp

theorem cascadeCostLink_payment_mem {db db₂ : DB} {l₀ : PaymentCostLink}
    {p : Payment} (h : cascadeCostLink db l₀ = some db₂)
    (hp : p ∈ db.payments) (hne : p.paymentId ≠ l₀.paymentId) :
    p ∈ db₂.payments := by
  rcases cascadeCostLink_cases h with ⟨-, hdb⟩ | ⟨-, -, hdb⟩ <;> rw [hdb]
  · exact mem_eraseP_of_not hp (by simpa using hne)
  · exact hp

theorem cascadeProductLink_ok {db : DB} {l₀ : PaymentProductLink}
    (hmem : l₀ ∈ db.paymentProductLinks) :
    ∃ db₂, cascadeProductLink db l₀ = some db₂ := by
  unfold cascadeProductLink
  cases db.payments.find? (fun p => p.paymentId == l₀.paymentId) with
  | none =>
    exact ⟨_, by rw [deleteRow_of_mem ⟨l₀, hmem, by simp⟩, Option.map_some']⟩
  | some q =>
    dsimp only
    by_cases hs : q.status = .pending
    · exact ⟨_, by rw [if_pos hs]⟩
    · exact ⟨_, by
        rw [if_neg hs, deleteRow_of_mem ⟨l₀, hmem, by simp⟩, Option.map_some']⟩

theorem cascadeCostLink_ok {db : DB} {l₀ : PaymentCostLink}
    (hmem : l₀ ∈ db.paymentCostLinks) :
    ∃ db₂, cascadeCostLink db l₀ = some db₂ := by
  unfold cascadeCostLink
  cases db.payments.find? (fun p => p.paymentId == l₀.paymentId) with
  | none =>
    exact ⟨_, by rw [deleteRow_of_mem ⟨l₀, hmem, by simp⟩, Option.map_some']⟩
  | some q =>
    dsimp only
    by_cases hs : q.status = .pending
    · exact ⟨_, by rw [if_pos hs]⟩
    · exact ⟨_, by
        rw [if_neg hs, deleteRow_of_mem ⟨l₀, hmem, by simp⟩, Option.map_some']⟩

theorem cascadeProduct_fold_ok (ls : List PaymentProductLink) (db : DB)
    (hnd : (ls.map (fun l => l.paymentId)).Nodup)
    (hpres : ∀ l ∈ ls, l ∈ db.paymentProductLinks) :
    ∃ db', ls.foldlM cascadeProductLink db = some db' := by
  induction ls generalizing db with
  | nil => exact ⟨db, rfl⟩
  | cons l₀ t ih =>
    obtain ⟨db₁, h₁⟩ := cascadeProductLink_ok
      (hpres l₀ (List.mem_cons_self _ _))
    rw [List.map_cons, List.nodup_cons] at hnd
    have hpres₁ : ∀ l ∈ t, l ∈ db₁.paymentProductLinks := by
      intro l hl
      have hidne : l.paymentId ≠ l₀.paymentId := by
        intro he
        exact hnd.1 (he ▸ List.mem_map_of_mem _ hl)
      rcases cascadeProductLink_cases h₁ with ⟨-, hdb⟩ | ⟨-, -, hdb⟩ <;>
        rw [hdb]
      · refine List.mem_filter.mpr
          ⟨hpres l (List.mem_cons_of_mem _ hl), ?_⟩
        simpa using hidne
      · refine mem_eraseP_of_not (hpres l (List.mem_cons_of_mem _ hl)) ?_
        simp only [beq_iff_eq]
        intro he
        exact hidne (by rw [he])
    obtain ⟨db', h₂⟩ := ih db₁ hnd.2 hpres₁
    refine ⟨db', ?_⟩
    rw [List.foldlM_cons, h₁]
    simp only [Option.bind_eq_bind, Option.some_bind]
    exact h₂

theorem cascadeCost_fold_ok (ls : List PaymentCostLink) (db : DB)
    (hnd : (ls.map (fun l => l.paymentId)).Nodup)
    (hpres : ∀ l ∈ ls, l ∈ db.paymentCostLinks) :
    ∃ db', ls.foldlM cascadeCostLink db = some db' := by
  induction ls generalizing db with
  | nil => exact ⟨db, rfl⟩
  | cons l₀ t ih =>
    obtain ⟨db₁, h₁⟩ := cascadeCostLink_ok
      (hpres l₀ (List.mem_cons_self _ _))
    rw [List.map_cons, List.nodup_cons] at hnd
    have hpres₁ : ∀ l ∈ t, l ∈ db₁.paymentCostLinks := by
      intro l hl
      have hidne : l.paymentId ≠ l₀.paymentId := by
        intro he
        exact hnd.1 (he ▸ List.mem_map_of_mem _ hl)
      rcases cascadeCostLink_cases h₁ with ⟨-, hdb⟩ | ⟨-, -, hdb⟩ <;>
        rw [hdb]
      · refine List.mem_filter.mpr
          ⟨hpres l (List.mem_cons_of_mem _ hl), ?_⟩
        simpa using hidne
      · refine mem_eraseP_of_not (hpres l (List.mem_cons_of_mem _ hl)) ?_
        simp only [beq_iff_eq]
        intro he
        exact hidne (by rw [he])
    obtain ⟨db', h₂⟩ := ih db₁ hnd.2 hpres₁
    refine ⟨db', ?_⟩
    rw [List.foldlM_cons, h₁]
    simp only [Option.bind_eq_bind, Option.some_bind]
    exact h₂

theorem cascadeProduct_clears {ls : List PaymentProductLink} {db db' : DB}
    {x : String} (hok : ls.foldlM cascadeProductLink db = some db')
    (hcount : db.payments.countP (fun p => p.paymentId == x) ≤ 1)
    (hpend : ∀ p ∈ db.payments, p.paymentId = x → p.status = .pending)
    (hpres : ∃ p ∈ db.payments, p.paymentId = x)
    (hln : ∃ l ∈ ls, l.paymentId = x) :
    noPaymentRefs db' x := by
  induction ls generalizing db with
  | nil => simp at hln
  | cons l₀ t ih =>
    rw [List.foldlM_cons] at hok
    cases h₁ : cascadeProductLink db l₀ with
    | none => rw [h₁] at hok; cases hok
    | some db₁ =>
      rw [h₁] at hok
      simp only [Option.bind_eq_bind, Option.some_bind] at hok
      by_cases hx : l₀.paymentId = x
      · -- this iteration finds the pending payment and clears everything
        rcases cascadeProductLink_cases h₁ with ⟨-, hdb⟩ | ⟨hnp, -, -⟩
        · have hstep : noPaymentRefs db₁ x := by
            rw [hdb]
            refine ⟨?_, ?_, ?_⟩
            · intro p hp
              have hnm := eraseP_no_match
                (p := fun p => p.paymentId == l₀.paymentId)
                (by simpa [hx] using hcount) p hp
              simpa [hx] using hnm
            · intro l2 hl2
              have hm := List.mem_filter.mp hl2
              simpa [hx] using hm.2
            · intro l2 hl2
              have hm := List.mem_filter.mp hl2
              simpa [hx] using hm.2
          exact noPaymentRefs_foldP hok hstep
        · -- the non-pending branch is impossible: the x-payment is pending
          rcases hpres with ⟨p0, hp0, hpx⟩
          have hsome : (db.payments.find?
              (fun p => p.paymentId == l₀.paymentId)).isSome := by
            rw [List.find?_isSome]
            exact ⟨p0, hp0, by simp [hx, hpx]⟩
          obtain ⟨q, hq⟩ := Option.isSome_iff_exists.mp hsome
          have hqx : q.paymentId = x := by
            have hpq := List.find?_some hq
            simpa [hx] using hpq
          exact absurd (hpend q (List.mem_of_find?_eq_some hq) hqx)
            (hnp q hq)
      · -- the payment with id `x` is untouched by this iteration
        refine ih hok ?_ ?_ ?_ ?_
        · exact le_trans ((cascadeProductLink_tables h₁).1.countP_le _) hcount
        · intro p hp hpx
          exact hpend p ((cascadeProductLink_tables h₁).1.subset hp) hpx
        · rcases hpres with ⟨p0, hp0, hpx⟩
          exact ⟨p0, cascadeProductLink_payment_mem h₁ hp0
            (by rw [hpx]; exact fun h => hx h.symm), hpx⟩
        · rcases hln with ⟨l2, hl2, hlx⟩
          rcases List.mem_cons.mp hl2 with h | h
          · exact absurd (h ▸ hlx) hx
          · exact ⟨l2, h, hlx⟩

theorem cascadeCost_clears {ls : List PaymentCostLink} {db db' : DB}
    {x : String} (hok : ls.foldlM cascadeCostLink db = some db')
    (hcount : db.payments.countP (fun p => p.paymentId == x) ≤ 1)
    (hpend : ∀ p ∈ db.payments, p.paymentId = x → p.status = .pending)
    (hpres : ∃ p ∈ db.payments, p.paymentId = x)
    (hln : ∃ l ∈ ls, l.paymentId = x) :
    noPaymentRefs db' x := by
  induction ls generalizing db with
  | nil => simp at hln
  | cons l₀ t ih =>
    rw [List.foldlM_cons] at hok
    cases h₁ : cascadeCostLink db l₀ with
    | none => rw [h₁] at hok; cases hok
    | some db₁ =>
      rw [h₁] at hok
      simp only [Option.bind_eq_bind, Option.some_bind] at hok
      by_cases hx : l₀.paymentId = x
      · rcases cascadeCostLink_cases h₁ with ⟨-, hdb⟩ | ⟨hnp, -, -⟩
        · have hstep : noPaymentRefs db₁ x := by
            rw [hdb]
            refine ⟨?_, ?_, ?_⟩
            · intro p hp
              have hnm := eraseP_no_match
                (p := fun p => p.paymentId == l₀.paymentId)
                (by simpa [hx] using hcount) p hp
              simpa [hx] using hnm
            · intro l2 hl2
              have hm := List.mem_filter.mp hl2
              simpa [hx] using hm.2
            · intro l2 hl2
              have hm := List.mem_filter.mp hl2
              simpa [hx] using hm.2
          exact noPaymentRefs_foldC hok hstep
        · rcases hpres with ⟨p0, hp0, hpx⟩
          have hsome : (db.payments.find?
              (fun p => p.paymentId == l₀.paymentId)).isSome := by
            rw [List.find?_isSome]
            exact ⟨p0, hp0, by simp [hx, hpx]⟩
          obtain ⟨q, hq⟩ := Option.isSome_iff_exists.mp hsome
          have hqx : q.paymentId = x := by
            have hpq := List.find?_some hq
            simpa [hx] using hpq
          exact absurd (hpend q (List.mem_of_find?_eq_some hq) hqx)
            (hnp q hq)
      · refine ih hok ?_ ?_ ?_ ?_
        · exact le_trans ((cascadeCostLink_tables h₁).1.countP_le _) hcount
        · intro p hp hpx
          exact hpend p ((cascadeCostLink_tables h₁).1.subset hp) hpx
        · rcases hpres with ⟨p0, hp0, hpx⟩
          exact ⟨p0, cascadeCostLink_payment_mem h₁ hp0
            (by rw [hpx]; exact fun h => hx h.symm), hpx⟩
        · rcases hln with ⟨l2, hl2, hlx⟩
          rcases List.mem_cons.mp hl2 with h | h
          · exact absurd (h ▸ hlx) hx
          · exact ⟨l2, h, hlx⟩

theorem cascadeProductLink_mem_approved {db db₂ : DB}
    {l₀ : PaymentProductLink} {x : String}
    (h : cascadeProductLink db l₀ = some db₂)
    (happr : ∀ p ∈ db.payments, p.paymentId = x → p.status = .approved) :
    (∀ p ∈ db.payments, p.paymentId = x → p ∈ db₂.payments) ∧
    (∀ l ∈ db.paymentCostLinks, l.paymentId = x →
      l ∈ db₂.paymentCostLinks) ∧
    (∀ l ∈ db.paymentProductLinks, l.paymentId = x → l ≠ l₀ →
      l ∈ db₂.paymentProductLinks) := by
  rcases cascadeProductLink_cases h with ⟨⟨q, hq, hqid, hqpend⟩, hdb⟩ |
    ⟨-, -, hdb⟩
  · have hY : l₀.paymentId ≠ x := by
      intro hYx
      have happ := happr q hq (hqid.trans hYx)
      rw [hqpend] at happ
      exact absurd happ (by decide)
    rw [hdb]
    refine ⟨?_, ?_, ?_⟩
    · intro p hp hpx
      refine mem_eraseP_of_not hp ?_
      simp only [beq_iff_eq, hpx]
      exact fun he => hY he.symm
    · intro l hl hlx
      refine List.mem_filter.mpr ⟨hl, ?_⟩
      simp only [Bool.not_eq_eq_eq_not, Bool.not_true, beq_eq_false_iff_ne,
        ne_eq, hlx]
      exact fun he => hY he.symm
    · intro l hl hlx _
      refine List.mem_filter.mpr ⟨hl, ?_⟩
      simp only [Bool.not_eq_eq_eq_not, Bool.not_true, beq_eq_false_iff_ne,
        ne_eq, hlx]
      exact fun he => hY he.symm
  · rw [hdb]
    exact ⟨fun p hp _ => hp, fun l hl _ => hl,
      fun l hl _ hne => mem_eraseP_of_not hl (by simpa using hne)⟩

theorem cascadeCostLink_mem_approved {db db₂ : DB}
    {l₀ : PaymentCostLink} {x : String}
    (h : cascadeCostLink db l₀ = some db₂)
    (happr : ∀ p ∈ db.payments, p.paymentId = x → p.status = .approved) :
    (∀ p ∈ db.payments, p.paymentId = x → p ∈ db₂.payments) ∧
    (∀ l ∈ db.paymentProductLinks, l.paymentId = x →
      l ∈ db₂.paymentProductLinks) ∧
    (∀ l ∈ db.paymentCostLinks, l.paymentId = x → l ≠ l₀ →
      l ∈ db₂.paymentCostLinks) := by
  rcases cascadeCostLink_cases h with ⟨⟨q, hq, hqid, hqpend⟩, hdb⟩ |
    ⟨-, -, hdb⟩
  · have hY : l₀.paymentId ≠ x := by
      intro hYx
      have happ := happr q hq (hqid.trans hYx)
      rw [hqpend] at happ
      exact absurd happ (by decide)
    rw [hdb]
    refine ⟨?_, ?_, ?_⟩
    · intro p hp hpx
      refine mem_eraseP_of_not hp ?_
      simp only [beq_iff_eq, hpx]
      exact fun he => hY he.symm
    · intro l hl hlx
      refine List.mem_filter.mpr ⟨hl, ?_⟩
      simp only [Bool.not_eq_eq_eq_not, Bool.not_true, beq_eq_false_iff_ne,
        ne_eq, hlx]
      exact fun he => hY he.symm
    · intro l hl hlx _
      refine List.mem_filter.mpr ⟨hl, ?_⟩
      simp only [Bool.not_eq_eq_eq_not, Bool.not_true, beq_eq_false_iff_ne,
        ne_eq, hlx]
      exact fun he => hY he.symm
  · rw [hdb]
    exact ⟨fun p hp _ => hp, fun l hl _ => hl,
      fun l hl _ hne => mem_eraseP_of_not hl (by simpa using hne)⟩

theorem cascadeProduct_approved {ls : List PaymentProductLink} {db db' : DB}
    {x : String} (hok : ls.foldlM cascadeProductLink db = some db')
    (happr : ∀ p ∈ db.payments, p.paymentId = x → p.status = .approved) :
    (∀ p ∈ db.payments, p.paymentId = x → p ∈ db'.payments) ∧
    (∀ l ∈ db.paymentCostLinks, l.paymentId = x →
      l ∈ db'.paymentCostLinks) ∧
    (∀ l ∈ db.paymentProductLinks, l.paymentId = x → (∀ l2 ∈ ls, l ≠ l2) →
      l ∈ db'.paymentProductLinks) := by
  induction ls generalizing db with
  | nil =>
    rw [List.foldlM_nil] at hok
    rw [← Option.some.inj hok]
    exact ⟨fun p hp _ => hp, fun l hl _ => hl, fun l hl _ _ => hl⟩
  | cons l₀ t ih =>
    rw [List.foldlM_cons] at hok
    cases h₁ : cascadeProductLink db l₀ with
    | none => rw [h₁] at hok; cases hok
    | some db₁ =>
      rw [h₁] at hok
      simp only [Option.bind_eq_bind, Option.some_bind] at hok
      have hstep := cascadeProductLink_mem_approved h₁ happr
      have happ₂ : ∀ p ∈ db₁.payments, p.paymentId = x →
          p.status = .approved :=
        fun p hp hpx => happr p ((cascadeProductLink_tables h₁).1.subset hp) hpx
      have hi := ih hok happ₂
      refine ⟨?_, ?_, ?_⟩
      · intro p hp hpx
        exact hi.1 p (hstep.1 p hp hpx) hpx
      · intro l hl hlx
        exact hi.2.1 l (hstep.2.1 l hl hlx) hlx
      · intro l hl hlx hne
        exact hi.2.2 l
          (hstep.2.2 l hl hlx (hne l₀ (List.mem_cons_self _ _))) hlx
          (fun l2 hl2 => hne l2 (List.mem_cons_of_mem _ hl2))

theorem cascadeCost_approved {ls : List PaymentCostLink} {db db' : DB}
    {x : String} (hok : ls.foldlM cascadeCostLink db = some db')
    (happr : ∀ p ∈ db.payments, p.paymentId = x → p.status = .approved) :
    (∀ p ∈ db.payments, p.paymentId = x → p ∈ db'.payments) ∧
    (∀ l ∈ db.paymentProductLinks, l.paymentId = x →
      l ∈ db'.paymentProductLinks) ∧
    (∀ l ∈ db.paymentCostLinks, l.paymentId = x → (∀ l2 ∈ ls, l ≠ l2) →
      l ∈ db'.paymentCostLinks) := by
  induction ls generalizing db with
  | nil =>
    rw [List.foldlM_nil] at hok
    rw [← Option.some.inj hok]
    exact ⟨fun p hp _ => hp, fun l hl _ => hl, fun l hl _ _ => hl⟩
  | cons l₀ t ih =>
    rw [List.foldlM_cons] at hok
    cases h₁ : cascadeCostLink db l₀ with
    | none => rw [h₁] at hok; cases hok
    | some db₁ =>
      rw [h₁] at hok
      simp only [Option.bind_eq_bind, Option.some_bind] at hok
      have hstep := cascadeCostLink_mem_approved h₁ happr
      have happ₂ : ∀ p ∈ db₁.payments, p.paymentId = x →
          p.status = .approved :=
        fun p hp hpx => happr p ((cascadeCostLink_tables h₁).1.subset hp) hpx
      have hi := ih hok happ₂
      refine ⟨?_, ?_, ?_⟩
      · intro p hp hpx
        exact hi.1 p (hstep.1 p hp hpx) hpx
      · intro l hl hlx
        exact hi.2.1 l (hstep.2.1 l hl hlx) hlx
      · intro l hl hlx hne
        exact hi.2.2 l
          (hstep.2.2 l hl hlx (hne l₀ (List.mem_cons_self _ _))) hlx
          (fun l2 hl2 => hne l2 (List.mem_cons_of_mem _ hl2))

theorem cascadeProduct_removes {ls : List PaymentProductLink} {db db' : DB}
    {x pid : String} (hok : ls.foldlM cascadeProductLink db = some db')
    (happr : ∀ p ∈ db.payments, p.paymentId = x → p.status = .approved)
    (hk : db.paymentProductLinks.countP
        (fun l => l.paymentId == x && l.productId == pid)
      ≤ ls.countP (fun l => l.paymentId == x && l.productId == pid)) :
    ∀ l ∈ db'.paymentProductLinks,
      ¬(l.paymentId = x ∧ l.productId = pid) := by
  induction ls generalizing db with
  | nil =>
    rw [List.foldlM_nil] at hok
    rw [← Option.some.inj hok]
    rw [List.countP_nil, Nat.le_zero] at hk
    intro l hl hpred
    have hfalse := List.countP_eq_zero.mp hk l hl
    simp [hpred.1, hpred.2] at hfalse
  | cons l₀ t ih =>
    rw [List.foldlM_cons] at hok
    cases h₁ : cascadeProductLink db l₀ with
    | none => rw [h₁] at hok; cases hok
    | some db₁ =>
      rw [h₁] at hok
      simp only [Option.bind_eq_bind, Option.some_bind] at hok
      have happ₂ : ∀ p ∈ db₁.payments, p.paymentId = x →
          p.status = .approved :=
        fun p hp hpx => happr p ((cascadeProductLink_tables h₁).1.subset hp) hpx
      refine ih hok happ₂ ?_
      rcases cascadeProductLink_cases h₁ with ⟨⟨q, hq, hqid, hqpend⟩, hdb⟩ |
        ⟨-, hmem, hdb⟩
      · -- pending branch: the bulk filter touches no target row
        have hY : l₀.paymentId ≠ x := by
          intro hYx
          have happ := happr q hq (hqid.trans hYx)
          rw [hqpend] at happ
          exact absurd happ (by decide)
        have hp₀ : ¬(l₀.paymentId == x && l₀.productId == pid) = true := by
          simp only [Bool.and_eq_true, beq_iff_eq]
          exact fun hc => hY hc.1
        rw [List.countP_cons_of_neg
          (fun l => l.paymentId == x && l.productId == pid) t hp₀] at hk
        rw [hdb]
        dsimp only
        rw [countP_filter_eq]
        rw [@countP_and_of_imp _
          (fun l => l.paymentId == x && l.productId == pid)
          (fun l => !(l.paymentId == l₀.paymentId)) db.paymentProductLinks
          (fun a hpa => by
            have h1 : a.paymentId = x := by
              simp only [Bool.and_eq_true, beq_iff_eq] at hpa
              exact hpa.1
            simp only [Bool.not_eq_eq_eq_not, Bool.not_true,
              beq_eq_false_iff_ne, ne_eq, h1]
            exact fun he => hY he.symm)]
        exact hk
      · -- else branch: one row equal to the head link is erased
        rw [hdb]
        dsimp only
        by_cases hp₀ : (l₀.paymentId == x && l₀.productId == pid) = true
        · rw [List.countP_cons_of_pos
            (fun l => l.paymentId == x && l.productId == pid) t hp₀] at hk
          have hdrop := countP_eraseP_of_pos
            (p := fun l => l.paymentId == x && l.productId == pid)
            (q := fun l => l == l₀) db.paymentProductLinks
            (fun a ha => by
              have haeq : a = l₀ := by simpa using ha
              rw [haeq]; exact hp₀)
            ⟨l₀, hmem, by simp⟩
          omega
        · rw [List.countP_cons_of_neg
            (fun l => l.paymentId == x && l.productId == pid) t hp₀] at hk
          rw [countP_eraseP_of_imp db.paymentProductLinks
            (fun a ha hpa => by
              have haeq : a = l₀ := by simpa using ha
              rw [haeq] at hpa
              exact hp₀ hpa)]
          exact hk

theorem cascadeCost_removes {ls : List PaymentCostLink} {db db' : DB}
    {x cid : String} (hok : ls.foldlM cascadeCostLink db = some db')
    (happr : ∀ p ∈ db.payments, p.paymentId = x → p.status = .approved)
    (hk : db.paymentCostLinks.countP
        (fun l => l.paymentId == x && l.costId == cid)
      ≤ ls.countP (fun l => l.paymentId == x && l.costId == cid)) :
    ∀ l ∈ db'.paymentCostLinks,
      ¬(l.paymentId = x ∧ l.costId = cid) := by
  induction ls generalizing db with
  | nil =>
    rw [List.foldlM_nil] at hok
    rw [← Option.some.inj hok]
    rw [List.countP_nil, Nat.le_zero] at hk
    intro l hl hpred
    have hfalse := List.countP_eq_zero.mp hk l hl
    simp [hpred.1, hpred.2] at hfalse
  | cons l₀ t ih =>
    rw [List.foldlM_cons] at hok
    cases h₁ : cascadeCostLink db l₀ with
    | none => rw [h₁] at hok; cases hok
    | some db₁ =>
      rw [h₁] at hok
      simp only [Option.bind_eq_bind, Option.some_bind] at hok
      have happ₂ : ∀ p ∈ db₁.payments, p.paymentId = x →
          p.status = .approved :=
        fun p hp hpx => happr p ((cascadeCostLink_tables h₁).1.subset hp) hpx
      refine ih hok happ₂ ?_
      rcases cascadeCostLink_cases h₁ with ⟨⟨q, hq, hqid, hqpend⟩, hdb⟩ |
        ⟨-, hmem, hdb⟩
      · have hY : l₀.paymentId ≠ x := by
          intro hYx
          have happ := happr q hq (hqid.trans hYx)
          rw [hqpend] at happ
          exact absurd happ (by decide)
        have hp₀ : ¬(l₀.paymentId == x && l₀.costId == cid) = true := by
          simp only [Bool.and_eq_true, beq_iff_eq]
          exact fun hc => hY hc.1
        rw [List.countP_cons_of_neg
          (fun l => l.paymentId == x && l.costId == cid) t hp₀] at hk
        rw [hdb]
        dsimp only
        rw [countP_filter_eq]
        rw [@countP_and_of_imp _
          (fun l => l.paymentId == x && l.costId == cid)
          (fun l => !(l.paymentId == l₀.paymentId)) db.paymentCostLinks
          (fun a hpa => by
            have h1 : a.paymentId = x := by
              simp only [Bool.and_eq_true, beq_iff_eq] at hpa
              exact hpa.1
            simp only [Bool.not_eq_eq_eq_not, Bool.not_true,
              beq_eq_false_iff_ne, ne_eq, h1]
            exact fun he => hY he.symm)]
        exact hk
      · rw [hdb]
        dsimp only
        by_cases hp₀ : (l₀.paymentId == x && l₀.costId == cid) = true
        · rw [List.countP_cons_of_pos
            (fun l => l.paymentId == x && l.costId == cid) t hp₀] at hk
          have hdrop := countP_eraseP_of_pos
            (p := fun l => l.paymentId == x && l.costId == cid)
            (q := fun l => l == l₀) db.paymentCostLinks
            (fun a ha => by
              have haeq : a = l₀ := by simpa using ha
              rw [haeq]; exact hp₀)
            ⟨l₀, hmem, by simp⟩
          omega
        · rw [List.countP_cons_of_neg
            (fun l => l.paymentId == x && l.costId == cid) t hp₀] at hk
          rw [countP_eraseP_of_imp db.paymentCostLinks
            (fun a ha hpa => by
              have haeq : a = l₀ := by simpa using ha
              rw [haeq] at hpa
              exact hp₀ hpa)]
          exact hk

theorem deleteProduct_run {db : DB} {pid : String} {q : Product} {dbf : DB}
    (hq : db.products.find? (fun p => p.productId == pid) = some q)
    (hfold : (db.paymentProductLinks.filter
        (fun l => l.productId == pid)).foldlM cascadeProductLink
      { db with
          costProductLinks :=
            db.costProductLinks.filter (fun l => !(l.productId == pid))
          productMilestones :=
            db.productMilestones.filter (fun m => !(m.productId == pid)) }
      = some dbf) :
    deleteProduct db pid = some (true, { dbf with
      products := dbf.products.eraseP (fun p => p.productId == pid) }) := by
  unfold deleteProduct
  rw [hq]
  show ((db.paymentProductLinks.filter
      (fun l => l.productId == pid)).foldlM cascadeProductLink
    { db with
        costProductLinks :=
          db.costProductLinks.filter (fun l => !(l.productId == pid))
        productMilestones :=
          db.productMilestones.filter (fun m => !(m.productId == pid)) }).map
      (fun db => (true, { db with
          products := db.products.eraseP
            (fun p => p.productId == pid) })) = _
  rw [hfold, Option.map_some']

theorem deleteCost_run {db : DB} {cid : String} {c : AdditionalCost}
    {dbf : DB}
    (hc : db.additionalCosts.find? (fun c => c.costId == cid) = some c)
    (hfold : (db.paymentCostLinks.filter
        (fun l => l.costId == cid)).foldlM cascadeCostLink
      { db with
          costProductLinks :=
            db.costProductLinks.filter (fun l => !(l.costId == cid)) }
      = some dbf) :
    deleteCost db cid = some (true, { dbf with
      additionalCosts := dbf.additionalCosts.eraseP
        (fun c => c.costId == cid) }) := by
  unfold deleteCost
  rw [hc]
  show ((db.paymentCostLinks.filter
      (fun l => l.costId == cid)).foldlM cascadeCostLink
    { db with
        costProductLinks :=
          db.costProductLinks.filter (fun l => !(l.costId == cid)) }).map
      (fun db => (true, { db with
          additionalCosts := db.additionalCosts.eraseP
            (fun c => c.costId == cid) })) = _
  rw [hfold, Option.map_some']

/-- C3: for a stored product all of whose linked payments are pending,
`deleteProduct` succeeds and deletes each such payment together with every
`paymentProductLinks` and `paymentCostLinks` row carrying its id: afterwards
no stored row references those payments; and likewise, independently, for a
stored cost and `deleteCost`.  Store well-formedness is assumed: payment ids
are unique, and the deleted entity's link rows reference pairwise-distinct
payments (a duplicated link to one pending payment would make the real
mutation throw on deleting an already-deleted row). -/
theorem pending_payment_cascade (db : DB) (pid cid : String)
    (hids : (db.payments.map (fun p => p.paymentId)).Nodup) :
    (((db.products.find? (fun q => q.productId == pid)).isSome ∧
      ((db.paymentProductLinks.filter (fun l => l.productId == pid)).map
        (fun l => l.paymentId)).Nodup ∧
      (∀ p ∈ db.payments,
        (∃ l ∈ db.paymentProductLinks,
          l.productId = pid ∧ l.paymentId = p.paymentId) →
        p.status = .pending)) →
      ∃ db₂, deleteProduct db pid = some (true, db₂) ∧
        ∀ p ∈ db.payments,
          (∃ l ∈ db.paymentProductLinks,
            l.productId = pid ∧ l.paymentId = p.paymentId) →
          noPaymentRefs db₂ p.paymentId) ∧
    (((db.additionalCosts.find? (fun c => c.costId == cid)).isSome ∧
      ((db.paymentCostLinks.filter (fun l => l.costId == cid)).map
        (fun l => l.paymentId)).Nodup ∧
      (∀ p ∈ db.payments,
        (∃ l ∈ db.paymentCostLinks,
          l.costId = cid ∧ l.paymentId = p.paymentId) →
        p.status = .pending)) →
      ∃ db₂, deleteCost db cid = some (true, db₂) ∧
        ∀ p ∈ db.payments,
          (∃ l ∈ db.paymentCostLinks,
            l.costId = cid ∧ l.paymentId = p.paymentId) →
          noPaymentRefs db₂ p.paymentId) := by
  constructor
  · rintro ⟨hprod, hnd, hpend⟩
    obtain ⟨q, hq⟩ := Option.isSome_iff_exists.mp hprod
    obtain ⟨dbf, hfold⟩ := cascadeProduct_fold_ok
      (db.paymentProductLinks.filter (fun l => l.productId == pid))
      { db with
          costProductLinks :=
            db.costProductLinks.filter (fun l => !(l.productId == pid))
          productMilestones :=
            db.productMilestones.filter (fun m => !(m.productId == pid)) }
      hnd (fun l hl => (List.mem_filter.mp hl).1)
    refine ⟨{ dbf with
        products := dbf.products.eraseP (fun p => p.productId == pid) },
      deleteProduct_run hq hfold, ?_⟩
    intro p hp hlink
    rcases hlink with ⟨l₀, hl₀, hl₀pid, hl₀pay⟩
    have hclr : noPaymentRefs dbf p.paymentId :=
      cascadeProduct_clears hfold
        (countP_le_one_of_nodup_map hids p.paymentId)
        (fun r hr hrx => hpend r hr ⟨l₀, hl₀, hl₀pid, hl₀pay.trans hrx.symm⟩)
        ⟨p, hp, rfl⟩
        ⟨l₀, List.mem_filter.mpr ⟨hl₀, by simp [hl₀pid]⟩, hl₀pay⟩
    exact hclr
  · rintro ⟨hcost, hnd, hpend⟩
    obtain ⟨c, hc⟩ := Option.isSome_iff_exists.mp hcost
    obtain ⟨dbf, hfold⟩ := cascadeCost_fold_ok
      (db.paymentCostLinks.filter (fun l => l.costId == cid))
      { db with
          costProductLinks :=
            db.costProductLinks.filter (fun l => !(l.costId == cid)) }
      hnd (fun l hl => (List.mem_filter.mp hl).1)
    refine ⟨{ dbf with
        additionalCosts := dbf.additionalCosts.eraseP
          (fun c => c.costId == cid) },
      deleteCost_run hc hfold, ?_⟩
    intro p hp hlink
    rcases hlink with ⟨l₀, hl₀, hl₀cid, hl₀pay⟩
    have hclr : noPaymentRefs dbf p.paymentId :=
      cascadeCost_clears hfold
        (countP_le_one_of_nodup_map hids p.paymentId)
        (fun r hr hrx => hpend r hr ⟨l₀, hl₀, hl₀cid, hl₀pay.trans hrx.symm⟩)
        ⟨p, hp, rfl⟩
        ⟨l₀, List.mem_filter.mpr ⟨hl₀, by simp [hl₀cid]⟩, hl₀pay⟩
    exact hclr

/-- Witness for `pending_payment_cascade`: in the concrete store `dbPending`,
deleting product `PROD-A` succeeds and erases every row referencing its
pending payment `PAY-P`; deleting cost `COST-EQ` succeeds and erases every
row referencing its pending payment `PAY-C`. -/
theorem pending_payment_cascade_witness :
    (deleteProduct dbPending "PROD-A").isSome ∧
    noPaymentRefs ((deleteProduct dbPending "PROD-A").getD (false, db0)).2
      "PAY-P" ∧
    (deleteCost dbPending "COST-EQ").isSome ∧
    noPaymentRefs ((deleteCost dbPending "COST-EQ").getD (false, db0)).2
      "PAY-C" := by
  obtain ⟨db₂, heq, hall⟩ := (pending_payment_cascade dbPending "PROD-A"
    "COST-EQ" (by decide)).1 ⟨by decide, by decide, by decide⟩
  obtain ⟨db₃, heq₂, hall₂⟩ := (pending_payment_cascade dbPending "PROD-A"
    "COST-EQ" (by decide)).2 ⟨by decide, by decide, by decide⟩
  refine ⟨by rw [heq]; rfl, ?_, by rw [heq₂]; rfl, ?_⟩
  · rw [heq]
    exact hall pendingPaymentRow (by decide)
      ⟨⟨"PAY-P", "PROD-A"⟩, by decide, by decide, by decide⟩
  · rw [heq₂]
    exact hall₂ { pendingPaymentRow with paymentId := "PAY-C" } (by decide)
      ⟨⟨"PAY-C", "COST-EQ"⟩, by decide, by decide, by decide⟩

/-- C4: deleting a product linked to an **approved** payment succeeds and
removes only the link rows joining the deleted product to that payment: the
payment row itself survives with every field unchanged, its links to other
products and to costs survive, and no link joining the deleted product to it
remains; and likewise, independently, for a cost and `deleteCost`.  Store
well-formedness is assumed as in the pending case: unique payment ids, and
the deleted entity's link rows reference pairwise-distinct payments. -/
theorem approved_payment_survives (db : DB) (pid cid : String) (P : Payment)
    (hids : (db.payments.map (fun p => p.paymentId)).Nodup)
    (hP : P ∈ db.payments)
    (happr : P.status = .approved) :
    (((db.products.find? (fun q => q.productId == pid)).isSome ∧
      ((db.paymentProductLinks.filter (fun l => l.productId == pid)).map
        (fun l => l.paymentId)).Nodup) →
      ∃ db₂, deleteProduct db pid = some (true, db₂) ∧
        P ∈ db₂.payments ∧
        (∀ l ∈ db.paymentProductLinks, l.paymentId = P.paymentId →
          l.productId ≠ pid → l ∈ db₂.paymentProductLinks) ∧
        (∀ l ∈ db.paymentCostLinks, l.paymentId = P.paymentId →
          l ∈ db₂.paymentCostLinks) ∧
        (∀ l ∈ db₂.paymentProductLinks,
          ¬(l.paymentId = P.paymentId ∧ l.productId = pid))) ∧
    (((db.additionalCosts.find? (fun c => c.costId == cid)).isSome ∧
      ((db.paymentCostLinks.filter (fun l => l.costId == cid)).map
        (fun l => l.paymentId)).Nodup) →
      ∃ db₂, deleteCost db cid = some (true, db₂) ∧
        P ∈ db₂.payments ∧
        (∀ l ∈ db.paymentCostLinks, l.paymentId = P.paymentId →
          l.costId ≠ cid → l ∈ db₂.paymentCostLinks) ∧
        (∀ l ∈ db.paymentProductLinks, l.paymentId = P.paymentId →
          l ∈ db₂.paymentProductLinks) ∧
        (∀ l ∈ db₂.paymentCostLinks,
          ¬(l.paymentId = P.paymentId ∧ l.costId = cid))) := by
  have happAll : ∀ r ∈ db.payments, r.paymentId = P.paymentId →
      r.status = .approved := by
    intro r hr hrx
    rw [List.inj_on_of_nodup_map hids hr hP hrx]
    exact happr
  constructor
  · rintro ⟨hprod, hnd⟩
    obtain ⟨q, hq⟩ := Option.isSome_iff_exists.mp hprod
    obtain ⟨dbf, hfold⟩ := cascadeProduct_fold_ok
      (db.paymentProductLinks.filter (fun l => l.productId == pid))
      { db with
          costProductLinks :=
            db.costProductLinks.filter (fun l => !(l.productId == pid))
          productMilestones :=
            db.productMilestones.filter (fun m => !(m.productId == pid)) }
      hnd (fun l hl => (List.mem_filter.mp hl).1)
    have hfa := cascadeProduct_approved hfold happAll
    have hkeq : (db.paymentProductLinks.filter
        (fun l => l.productId == pid)).countP
        (fun l => l.paymentId == P.paymentId && l.productId == pid)
        = db.paymentProductLinks.countP
          (fun l => l.paymentId == P.paymentId && l.productId == pid) := by
      rw [countP_filter_eq]
      exact @countP_and_of_imp _
        (fun l => l.paymentId == P.paymentId && l.productId == pid)
        (fun l => l.productId == pid) db.paymentProductLinks
        (fun a hpa => by
          simp only [Bool.and_eq_true] at hpa
          exact hpa.2)
    have hrem := cascadeProduct_removes hfold happAll (le_of_eq hkeq.symm)
    refine ⟨{ dbf with
        products := dbf.products.eraseP (fun p => p.productId == pid) },
      deleteProduct_run hq hfold, hfa.1 P hP rfl, ?_, ?_, ?_⟩
    · intro l hl hlx hlpid
      refine hfa.2.2 l hl hlx ?_
      intro l2 hl2 heq2
      have hm2 := List.mem_filter.mp hl2
      exact hlpid (by rw [heq2]; simpa using hm2.2)
    · intro l hl hlx
      exact hfa.2.1 l hl hlx
    · intro l hl
      exact hrem l hl
  · rintro ⟨hcost, hnd⟩
    obtain ⟨c, hc⟩ := Option.isSome_iff_exists.mp hcost
    obtain ⟨dbf, hfold⟩ := cascadeCost_fold_ok
      (db.paymentCostLinks.filter (fun l => l.costId == cid))
      { db with
          costProductLinks :=
            db.costProductLinks.filter (fun l => !(l.costId == cid)) }
      hnd (fun l hl => (List.mem_filter.mp hl).1)
    have hfa := cascadeCost_approved hfold happAll
    have hkeq : (db.paymentCostLinks.filter
        (fun l => l.costId == cid)).countP
        (fun l => l.paymentId == P.paymentId && l.costId == cid)
        = db.paymentCostLinks.countP
          (fun l => l.paymentId == P.paymentId && l.costId == cid) := by
      rw [countP_filter_eq]
      exact @countP_and_of_imp _
        (fun l => l.paymentId == P.paymentId && l.costId == cid)
        (fun l => l.costId == cid) db.paymentCostLinks
        (fun a hpa => by
          simp only [Bool.and_eq_true] at hpa
          exact hpa.2)
    have hrem := cascadeCost_removes hfold happAll (le_of_eq hkeq.symm)
    refine ⟨{ dbf with
        additionalCosts := dbf.additionalCosts.eraseP
          (fun c => c.costId == cid) },
      deleteCost_run hc hfold, hfa.1 P hP rfl, ?_, ?_, ?_⟩
    · intro l hl hlx hlcid
      refine hfa.2.2 l hl hlx ?_
      intro l2 hl2 heq2
      have hm2 := List.mem_filter.mp hl2
      exact hlcid (by rw [heq2]; simpa using hm2.2)
    · intro l hl hlx
      exact hfa.2.1 l hl hlx
    · intro l hl
      exact hrem l hl

/-- Witness for `approved_payment_survives`: in `dbApproved`, deleting
product `PROD-A` succeeds, keeps the approved payment `PAY-A` stored and
keeps its link to product `PROD-B`; deleting cost `COST-EQ` also succeeds
and keeps the payment. -/
theorem approved_payment_survives_witness :
    (deleteProduct dbApproved "PROD-A").isSome ∧
    approvedPaymentRow ∈
      ((deleteProduct dbApproved "PROD-A").getD (false, db0)).2.payments ∧
    (⟨"PAY-A", "PROD-B"⟩ : PaymentProductLink) ∈
      ((deleteProduct dbApproved "PROD-A").getD
        (false, db0)).2.paymentProductLinks ∧
    (deleteCost dbApproved "COST-EQ").isSome ∧
    approvedPaymentRow ∈
      ((deleteCost dbApproved "COST-EQ").getD (false, db0)).2.payments := by
  obtain ⟨db₂, heq, hmem, hpp, hpc, hrem⟩ :=
    (approved_payment_survives dbApproved "PROD-A" "COST-EQ"
      approvedPaymentRow (by decide) (by decide) rfl).1 ⟨by decide, by decide⟩
  obtain ⟨db₃, heq₂, hmem₂, -, -, -⟩ :=
    (approved_payment_survives dbApproved "PROD-A" "COST-EQ"
      approvedPaymentRow (by decide) (by decide) rfl).2 ⟨by decide, by decide⟩
  refine ⟨by rw [heq]; rfl, ?_, ?_, by rw [heq₂]; rfl, ?_⟩
  · rw [heq]
    exact hmem
  · rw [heq]
    exact hpp ⟨"PAY-A", "PROD-B"⟩ (by decide) rfl (by decide)
  · rw [heq₂]
    exact hmem₂

end Procurement
